import Mathlib

/-!
Verification development for the jscal in-memory calendar engine.

The JavaScript sources are embedded shallowly:
* JS strings become `Str` (lists of characters);
* JS `Date` values become `JSDate`, a record of normalized civil fields
  (year, 0-based month, 1-based day, milliseconds within the day).  The
  environment's local time zone is taken to be UTC, so local-time and
  UTC accessors coincide and no DST discontinuities exist; a calendar
  day is exactly 86400000 ms;
* JS numbers appearing in rule fields become `JsNum := Option Int`
  (`none` models `NaN`);
* functions that can return `null` return `Option` values, and the
  unbounded `while` loop of `expandRecurrence` is modelled with an
  explicit fuel parameter (`none` = the loop has not finished within
  the given number of iterations).
-/

/-- Characters of a JavaScript string. -/
abbrev Str := List Char

/-- JS `String.prototype.toUpperCase`, restricted to ASCII (all strings in
the modelled grammar are ASCII). -/
def toUpperStr (s : Str) : Str := s.map Char.toUpper

/-- JS `String.prototype.toLowerCase`, restricted to ASCII. -/
def toLowerStr (s : Str) : Str := s.map Char.toLower

/-- JS `String.prototype.split` with a single-character separator:
`"".split(c)` is `[""]`, separators at the ends produce empty pieces. -/
def splitChar (c : Char) : Str → List Str
  | [] => [[]]
  | a :: rest =>
    if a = c then [] :: splitChar c rest
    else
      match splitChar c rest with
      | h :: t => (a :: h) :: t
      | [] => [[a]]

/-- JS `Array.prototype.join` with a single-character separator. -/
def intercalateChar (c : Char) : List Str → Str
  | [] => []
  | [s] => s
  | s :: s2 :: rest => s ++ c :: intercalateChar c (s2 :: rest)

/-- The decimal digit character for `n < 10`. -/
def digitChar10 (n : Nat) : Char := Char.ofNat (48 + n)

/-- Fueled big-endian decimal digit printer (the fuel is always sufficient
when called through `natToStr`). -/
def natToStrGo : Nat → Nat → Str → Str
  | 0, _, acc => acc
  | fuel + 1, n, acc =>
    if n < 10 then digitChar10 n :: acc
    else natToStrGo fuel (n / 10) (digitChar10 (n % 10) :: acc)

/-- Decimal representation of a natural number, as JS prints numbers. -/
def natToStr (n : Nat) : Str := natToStrGo (n + 1) n []

/-- Decimal representation of an integer, as JS prints numbers. -/
def intToStr (i : Int) : Str :=
  if i < 0 then '-' :: natToStr (-i).toNat else natToStr i.toNat

/-- Printing of a JS number that may be `NaN`. -/
def jsNumToStr (v : Option Int) : Str :=
  match v with
  | some i => intToStr i
  | none => ['N', 'a', 'N']

/-- Numeric value of a digit string (used by the `parseInt` model). -/
def foldDigits (s : Str) : Nat :=
  s.foldl (fun a c => a * 10 + (c.toNat - 48)) 0

/-- JS `parseInt(v, 10)` on inputs without leading whitespace: an optional
sign followed by the longest leading run of decimal digits; `NaN` (here
`none`) when that run is empty. -/
def parseIntJS (s : Str) : Option Int :=
  match s with
  | [] => none
  | c :: rest =>
    if c = '-' then
      (if (rest.takeWhile Char.isDigit).isEmpty then none
       else some (-(foldDigits (rest.takeWhile Char.isDigit) : Int)))
    else if c = '+' then
      (if (rest.takeWhile Char.isDigit).isEmpty then none
       else some ((foldDigits (rest.takeWhile Char.isDigit) : Int)))
    else
      (if ((c :: rest).takeWhile Char.isDigit).isEmpty then none
       else some ((foldDigits ((c :: rest).takeWhile Char.isDigit) : Int)))

/-- JS `String.prototype.padStart(2, '0')`. -/
def padStart2 (s : Str) : Str :=
  if s.length < 2 then List.replicate (2 - s.length) '0' ++ s else s

/-- JS `String.prototype.substring(a, b)` for `a ≤ b`. -/
def substrJS (a b : Nat) (s : Str) : Str := (s.drop a).take (b - a)

/-- A JS `Date` in a UTC environment: normalized civil fields.  `month` is
0-based (0 = January), `day` is 1-based, `msOfDay` is the time of day in
milliseconds. -/
structure JSDate where
  year : Int
  month : Int
  day : Int
  msOfDay : Int
deriving DecidableEq

/-- Gregorian leap-year test, as realized by JS `Date`. -/
def isLeapYear (y : Int) : Bool :=
  y % 4 == 0 && (y % 100 != 0 || y % 400 == 0)

/-- Length in days of 0-based month `m` of year `y` (meaningful for
`0 ≤ m ≤ 11`). -/
def monthLength (y m : Int) : Int :=
  if m = 1 then (if isLeapYear y then 29 else 28)
  else if m = 3 ∨ m = 5 ∨ m = 8 ∨ m = 10 then 30
  else 31

/-- Days in year `y` that precede 0-based month `m` (meaningful for
`0 ≤ m ≤ 12`). -/
def daysToMonth (y m : Int) : Int :=
  (if m ≤ 0 then 0 else if m = 1 then 31 else if m = 2 then 59
   else if m = 3 then 90 else if m = 4 then 120 else if m = 5 then 151
   else if m = 6 then 181 else if m = 7 then 212 else if m = 8 then 243
   else if m = 9 then 273 else if m = 10 then 304 else if m = 11 then 334
   else 365)
  + (if 2 ≤ m ∧ isLeapYear y then 1 else 0)

/-- Leap years in `(0, y]` (an auxiliary counting function). -/
def leapCnt (y : Int) : Int := y / 4 - y / 100 + y / 400

/-- Days from 1970-01-01 to the first day of year `y` (negative for years
before 1970). -/
def daysBeforeYear (y : Int) : Int :=
  365 * (y - 1970) + (leapCnt (y - 1) - leapCnt 1969)

/-- Day number (days since 1970-01-01) of the civil triple `(y, m, d)`;
affine in `d`, so it is meaningful also for unnormalized day values. -/
def dayNumber (y m d : Int) : Int :=
  daysBeforeYear y + daysToMonth y m + d - 1

/-- Fueled day-of-month normalization: rolls an out-of-range 1-based day
into the neighbouring months, exactly as JS `Date` normalizes its
arguments.  Expects `0 ≤ m ≤ 11`; the fuel supplied by `mkDate` is always
sufficient. -/
def normDayGo : Nat → Int → Int → Int → Int × Int × Int
  | 0, y, m, d => (y, m, d)
  | fuel + 1, y, m, d =>
    if d < 1 then
      (if m = 0 then normDayGo fuel (y - 1) 11 (d + monthLength (y - 1) 11)
       else normDayGo fuel y (m - 1) (d + monthLength y (m - 1)))
    else if monthLength y m < d then
      (if m = 11 then normDayGo fuel (y + 1) 0 (d - monthLength y 11)
       else normDayGo fuel y (m + 1) (d - monthLength y m))
    else (y, m, d)

theorem normDayGo_succ (fuel : Nat) (y m d : Int) :
    normDayGo (fuel + 1) y m d =
      if d < 1 then
        (if m = 0 then normDayGo fuel (y - 1) 11 (d + monthLength (y - 1) 11)
         else normDayGo fuel y (m - 1) (d + monthLength y (m - 1)))
      else if monthLength y m < d then
        (if m = 11 then normDayGo fuel (y + 1) 0 (d - monthLength y 11)
         else normDayGo fuel y (m + 1) (d - monthLength y m))
      else (y, m, d) := rfl

/-- Normalized (year, month, day) triple for JS `Date` construction: the
time argument carries whole days into the day, the month is reduced into
`0..11` with floor semantics, and the day is rolled through the months. -/
def mkDateT (y m d ms : Int) : Int × Int × Int :=
  normDayGo ((d + ms / 86400000).natAbs + 24) (y + m / 12) (m % 12)
    (d + ms / 86400000)

/-- JS `Date` construction from civil arguments (`new Date(y, m, d)` /
`Date.UTC`): any out-of-range month, day or time argument is carried into
the neighbouring fields, with floor semantics for negative values. -/
def mkDate (y m d ms : Int) : JSDate :=
  ⟨(mkDateT y m d ms).1, (mkDateT y m d ms).2.1, (mkDateT y m d ms).2.2,
    ms % 86400000⟩

/-- Day number of a `JSDate`. -/
def epochDay (dt : JSDate) : Int := dayNumber dt.year dt.month dt.day

/-- JS `Date.prototype.getTime`: epoch milliseconds. -/
def toEpochMs (dt : JSDate) : Int := epochDay dt * 86400000 + dt.msOfDay

/-- JS `new Date(ms)`: rebuild the civil fields from epoch milliseconds. -/
def dateFromMs (x : Int) : JSDate :=
  mkDate 1970 0 (1 + x / 86400000) (x % 86400000)

/-- JS `Date.prototype.getDay` (0 = Sunday); 1970-01-01 was a Thursday. -/
def getDayJS (dt : JSDate) : Int := (epochDay dt + 4) % 7

theorem daysBeforeYear_succ (y : Int) :
    daysBeforeYear (y + 1) =
      daysBeforeYear y + 365 + (if isLeapYear y then 1 else 0) := by
  simp only [daysBeforeYear, leapCnt, isLeapYear, Bool.and_eq_true,
    Bool.or_eq_true, beq_iff_eq, bne_iff_ne, ne_eq, decide_eq_true_eq]
  have h4 : (y + 1 - 1) / 4 - (y - 1) / 4 = (if y % 4 = 0 then 1 else 0) := by
    split <;> omega
  have h100 : (y + 1 - 1) / 100 - (y - 1) / 100 = (if y % 100 = 0 then 1 else 0) := by
    split <;> omega
  have h400 : (y + 1 - 1) / 400 - (y - 1) / 400 = (if y % 400 = 0 then 1 else 0) := by
    split <;> omega
  by_cases h4c : y % 4 = 0 <;> by_cases h100c : y % 100 = 0 <;>
    by_cases h400c : y % 400 = 0 <;>
      simp only [h4c, h100c, h400c, if_true, if_false, true_and, false_and,
        not_true, not_false_iff, true_or, or_true, false_or, or_false,
        if_neg, if_pos] at h4 h100 h400 ⊢ <;>
        omega

theorem daysToMonth_succ (y m : Int) (h1 : 0 ≤ m) (h2 : m ≤ 11) :
    daysToMonth y (m + 1) = daysToMonth y m + monthLength y m := by
  interval_cases m <;>
    cases hL : isLeapYear y <;>
      simp [daysToMonth, monthLength, hL]

theorem daysToMonth_zero (y : Int) : daysToMonth y 0 = 0 := by
  norm_num [daysToMonth]

theorem daysToMonth_twelve (y : Int) :
    daysToMonth y 12 = 365 + (if isLeapYear y then 1 else 0) := by
  cases hL : isLeapYear y <;> norm_num [daysToMonth, hL]

theorem daysBeforeYear_sub (y : Int) :
    daysBeforeYear y =
      daysBeforeYear (y - 1) + 365 + (if isLeapYear (y - 1) then 1 else 0) := by
  have h := daysBeforeYear_succ (y - 1)
  have e : y - 1 + 1 = y := by omega
  rw [e] at h
  omega

theorem monthLength_eleven (y : Int) : monthLength y 11 = 31 := by
  norm_num [monthLength]

theorem monthLength_bounds (y m : Int) (h1 : 0 ≤ m) (h2 : m ≤ 11) :
    28 ≤ monthLength y m ∧ monthLength y m ≤ 31 := by
  interval_cases m <;> cases hL : isLeapYear y <;> norm_num [monthLength, hL]

theorem normDayGo_dayNumber : ∀ (fuel : Nat) (y m d : Int), 0 ≤ m → m ≤ 11 →
    dayNumber (normDayGo fuel y m d).1 (normDayGo fuel y m d).2.1
      (normDayGo fuel y m d).2.2 = dayNumber y m d := by
  intro fuel
  induction fuel with
  | zero => intro y m d h1 h2; rfl
  | succ fuel ih =>
    intro y m d h1 h2
    simp only [normDayGo]
    by_cases hd : d < 1
    · rw [if_pos hd]
      by_cases hm : m = 0
      · rw [if_pos hm]
        rw [ih _ _ _ (by norm_num) (by norm_num)]
        subst hm
        have e1 := daysToMonth_succ (y - 1) 11 (by norm_num) (by norm_num)
        have e2 := daysBeforeYear_sub y
        have e3 := daysToMonth_twelve (y - 1)
        have e4 : (11 : Int) + 1 = 12 := by norm_num
        rw [e4] at e1
        simp only [dayNumber, daysToMonth_zero]
        omega
      · rw [if_neg hm]
        rw [ih _ _ _ (by omega) (by omega)]
        have e1 := daysToMonth_succ y (m - 1) (by omega) (by omega)
        have em : m - 1 + 1 = m := by omega
        rw [em] at e1
        simp only [dayNumber]
        omega
    · rw [if_neg hd]
      by_cases hbig : monthLength y m < d
      · rw [if_pos hbig]
        by_cases hm : m = 11
        · rw [if_pos hm]
          rw [ih _ _ _ (by norm_num) (by norm_num)]
          subst hm
          have e1 := daysToMonth_succ y 11 (by norm_num) (by norm_num)
          have e2 := daysBeforeYear_succ y
          have e3 := daysToMonth_twelve y
          have e4 : (11 : Int) + 1 = 12 := by norm_num
          rw [e4] at e1
          have e5 := monthLength_eleven y
          simp only [dayNumber, daysToMonth_zero]
          omega
        · rw [if_neg hm]
          rw [ih _ _ _ (by omega) (by omega)]
          have e1 := daysToMonth_succ y m h1 h2
          simp only [dayNumber]
          omega
      · rw [if_neg hbig]

theorem normDayGo_month : ∀ (fuel : Nat) (y m d : Int), 0 ≤ m → m ≤ 11 →
    0 ≤ (normDayGo fuel y m d).2.1 ∧ (normDayGo fuel y m d).2.1 ≤ 11 := by
  intro fuel
  induction fuel with
  | zero => intro y m d h1 h2; exact ⟨h1, h2⟩
  | succ fuel ih =>
    intro y m d h1 h2
    simp only [normDayGo]
    by_cases hd : d < 1
    · rw [if_pos hd]
      by_cases hm : m = 0
      · rw [if_pos hm]; exact ih _ _ _ (by norm_num) (by norm_num)
      · rw [if_neg hm]; exact ih _ _ _ (by omega) (by omega)
    · rw [if_neg hd]
      by_cases hbig : monthLength y m < d
      · rw [if_pos hbig]
        by_cases hm : m = 11
        · rw [if_pos hm]; exact ih _ _ _ (by norm_num) (by norm_num)
        · rw [if_neg hm]; exact ih _ _ _ (by omega) (by omega)
      · rw [if_neg hbig]; exact ⟨h1, h2⟩

theorem mkDate_epochDay (y m d ms : Int) :
    epochDay (mkDate y m d ms) =
        dayNumber (y + m / 12) (m % 12) (d + ms / 86400000) ∧
      (mkDate y m d ms).msOfDay = ms % 86400000 ∧
      0 ≤ (mkDate y m d ms).month ∧ (mkDate y m d ms).month ≤ 11 ∧
      0 ≤ (mkDate y m d ms).msOfDay ∧ (mkDate y m d ms).msOfDay < 86400000 := by
  have hm1 : 0 ≤ m % 12 := by omega
  have hm2 : m % 12 ≤ 11 := by omega
  have hmem := normDayGo_month ((d + ms / 86400000).natAbs + 24) (y + m / 12)
    (m % 12) (d + ms / 86400000) hm1 hm2
  have hdn := normDayGo_dayNumber ((d + ms / 86400000).natAbs + 24) (y + m / 12)
    (m % 12) (d + ms / 86400000) hm1 hm2
  refine ⟨hdn, rfl, hmem.1, hmem.2, ?_, ?_⟩
  · show 0 ≤ ms % 86400000
    omega
  · show ms % 86400000 < 86400000
    omega

theorem mkDate_inRange (y m d ms : Int) (h1 : 0 ≤ m) (h2 : m ≤ 11)
    (h5 : 0 ≤ ms) (h6 : ms < 86400000) :
    epochDay (mkDate y m d ms) = dayNumber y m d ∧
      (mkDate y m d ms).msOfDay = ms := by
  have h := mkDate_epochDay y m d ms
  have e1 : m / 12 = 0 := by omega
  have e2 : m % 12 = m := by omega
  have e3 : ms / 86400000 = 0 := by omega
  have e4 : ms % 86400000 = ms := by omega
  rw [e1, e2, e3, e4] at h
  have e5 : y + 0 = y := by omega
  have e6 : d + 0 = d := by omega
  rw [e5, e6] at h
  exact ⟨h.1, h.2.1⟩

theorem mkDate_valid (y m d ms : Int) (h1 : 0 ≤ m) (h2 : m ≤ 11)
    (h3 : 1 ≤ d) (h4 : d ≤ monthLength y m) (h5 : 0 ≤ ms) (h6 : ms < 86400000) :
    mkDate y m d ms = ⟨y, m, d, ms⟩ := by
  have e1 : ms / 86400000 = 0 := by omega
  have e2 : ms % 86400000 = ms := by omega
  have e3 : m / 12 = 0 := by omega
  have e4 : m % 12 = m := by omega
  have key : mkDateT y m d ms = (y, m, d) := by
    simp only [mkDateT]
    rw [e1, e3, e4]
    have e5 : y + 0 = y := by omega
    have e6 : d + 0 = d := by omega
    rw [e5, e6]
    obtain ⟨f, hf⟩ : ∃ f, d.natAbs + 24 = f + 1 := ⟨d.natAbs + 23, by omega⟩
    rw [hf]
    simp only [normDayGo]
    rw [if_neg (by omega), if_neg (by omega)]
  simp only [mkDate, key, e2]

theorem toEpochMs_dateFromMs (x : Int) : toEpochMs (dateFromMs x) = x := by
  simp only [dateFromMs, toEpochMs]
  have h := mkDate_inRange 1970 0 (1 + x / 86400000) (x % 86400000)
    (by norm_num) (by norm_num) (by omega) (by omega)
  rw [h.1, h.2]
  have e : daysBeforeYear 1970 = 0 := by norm_num [daysBeforeYear]
  simp only [dayNumber, e, daysToMonth_zero]
  omega

/-- The string DAILY. -/
def sDAILY : Str := ['D', 'A', 'I', 'L', 'Y']

/-- The string WEEKLY. -/
def sWEEKLY : Str := ['W', 'E', 'E', 'K', 'L', 'Y']

/-- The string MONTHLY. -/
def sMONTHLY : Str := ['M', 'O', 'N', 'T', 'H', 'L', 'Y']

/-- The string YEARLY. -/
def sYEARLY : Str := ['Y', 'E', 'A', 'R', 'L', 'Y']

/-- The string FREQ. -/
def kwFREQ : Str := ['F', 'R', 'E', 'Q']

/-- The string COUNT. -/
def kwCOUNT : Str := ['C', 'O', 'U', 'N', 'T']

/-- The string UNTIL. -/
def kwUNTIL : Str := ['U', 'N', 'T', 'I', 'L']

/-- The string INTERVAL. -/
def kwINTERVAL : Str := ['I', 'N', 'T', 'E', 'R', 'V', 'A', 'L']

/-- The string BYDAY. -/
def kwBYDAY : Str := ['B', 'Y', 'D', 'A', 'Y']

/-- The string BYMONTHDAY. -/
def kwBYMONTHDAY : Str := ['B', 'Y', 'M', 'O', 'N', 'T', 'H', 'D', 'A', 'Y']

/-- The string BYMONTH. -/
def kwBYMONTH : Str := ['B', 'Y', 'M', 'O', 'N', 'T', 'H']

/-- The string WKST. -/
def kwWKST : Str := ['W', 'K', 'S', 'T']

/-- The rule-type marker RRULE followed by a colon. -/
def kwRRULEc : Str := ['R', 'R', 'U', 'L', 'E', ':']

/-- Weekday codes indexed by JS `getDay` (0 = Sunday), the `days` table of
`Recurrence.getDayOfWeekCode`. -/
def dayCodes : List Str :=
  [['S', 'U'], ['M', 'O'], ['T', 'U'], ['W', 'E'], ['T', 'H'], ['F', 'R'],
   ['S', 'A']]

/-- `Recurrence.getDayOfWeekCode` (src/unnamed/part_004): weekday code for a
JS `getDay` value. -/
def getDayOfWeekCode (dayOfWeek : Int) : Str := dayCodes.getD dayOfWeek.toNat []

/-- A parsed recurrence rule object.  Absent JS fields are `none`; numeric
fields hold `JsNum = Option Int` values whose `none` models `NaN`; `extra`
holds the unrecognized keys stored under their lower-cased name. -/
structure RRuleObj where
  freq : Option Str := none
  count : Option (Option Int) := none
  untilDate : Option JSDate := none  -- the JS field is named until (a Lean keyword)
  interval : Option (Option Int) := none
  byDay : Option (List Str) := none
  byMonthDay : Option (List (Option Int)) := none
  byMonth : Option (List (Option Int)) := none
  wkst : Option Str := none
  extra : List (Str × Str) := []
deriving DecidableEq

/-- The empty rule object `{}` that `parseRRule` starts from. -/
def emptyRule : RRuleObj := {}

/-- A value stored in `event.recurrence`: a rule string or a rule object. -/
inductive RecField where
  | str (s : Str)
  | obj (r : RRuleObj)
deriving DecidableEq

/-- The canonical event record (ICS/JSON adapters and `normalizeEvent`
produce this shape).  `end` is renamed `endTime` (`end` is a Lean keyword);
optional fields use `Option`.  The three trailing fields are the occurrence
metadata added by `expandRecurrence`. -/
structure Event where
  title : Str := []
  start : Option JSDate := none
  endTime : Option JSDate := none
  description : Str := []
  location : Str := []
  uid : Str := []
  categories : List Str := []
  color : Option Str := none
  priority : Option Int := none
  attachments : List Str := []
  status : Option Str := none
  isAllDay : Bool := false
  organizer : Option Str := none
  attendees : List Str := []
  recurrence : Option RecField := none
  rrule : Option Str := none
  isRecurring : Bool := false
  recurringEventId : Option Str := none
  recurrenceDate : Option JSDate := none
deriving DecidableEq

/-- `Recurrence.parseRRuleDate` (src/unnamed/part_004 lines 66-95): parses
YYYYMMDD, or YYYYMMDDTHHMMSS with optional Z.  In the UTC model the local
and UTC constructors coincide.  The final fallback hands an arbitrary
string to `new Date(...)`; that general parser is not modelled and, like a
numeric-field parse failure, is rendered as `none` (JS would build an
Invalid Date). -/
def parseRRuleDate (s : Str) : Option JSDate :=
  if s.length = 8 then
    match parseIntJS (substrJS 0 4 s), parseIntJS (substrJS 4 6 s),
        parseIntJS (substrJS 6 8 s) with
    | some y, some mo, some d => some (mkDate y (mo - 1) d 0)
    | _, _, _ => none
  else if s.contains 'T' then
    match parseIntJS (substrJS 0 4 s), parseIntJS (substrJS 4 6 s),
        parseIntJS (substrJS 6 8 s), parseIntJS (substrJS 9 11 s),
        parseIntJS (substrJS 11 13 s), parseIntJS (substrJS 13 15 s) with
    | some y, some mo, some d, some h, some mi, some sec =>
        some (mkDate y (mo - 1) d (h * 3600000 + mi * 60000 + sec * 1000))
    | _, _, _, _, _, _ => none
  else none

/-- JS object assignment `obj[k] = v` on the passthrough store. -/
def setExtra (l : List (Str × Str)) (k v : Str) : List (Str × Str) :=
  match l with
  | [] => [(k, v)]
  | (k0, v0) :: rest =>
    if k0 = k then (k0, v) :: rest else (k0, v0) :: setExtra rest k v

/-- Strip a leading case-insensitive `RRULE:` marker, the
`replace(/^RRULE:/i, '')` of `parseRRule`. -/
def stripRuleMarker (s : Str) : Str :=
  if toUpperStr (s.take 6) = kwRRULEc then s.drop 6 else s

/-- One iteration of the `forEach` in `Recurrence.parseRRule`: split the
part at `=`, skip it when key or value is missing or empty, otherwise
dispatch on the upper-cased key. -/
def applyRulePart (r : RRuleObj) (part : Str) : RRuleObj :=
  match splitChar '=' part with
  | key :: value :: _ =>
    if key.isEmpty ∨ value.isEmpty then r
    else
      if toUpperStr key = kwFREQ then { r with freq := some (toUpperStr value) }
      else if toUpperStr key = kwCOUNT then
        { r with count := some (parseIntJS value) }
      else if toUpperStr key = kwUNTIL then
        { r with untilDate := parseRRuleDate value }
      else if toUpperStr key = kwINTERVAL then
        { r with interval := some (parseIntJS value) }
      else if toUpperStr key = kwBYDAY then
        { r with byDay := some (splitChar ',' value) }
      else if toUpperStr key = kwBYMONTHDAY then
        { r with byMonthDay := some ((splitChar ',' value).map parseIntJS) }
      else if toUpperStr key = kwBYMONTH then
        { r with byMonth := some ((splitChar ',' value).map parseIntJS) }
      else if toUpperStr key = kwWKST then
        { r with wkst := some (toUpperStr value) }
      else { r with extra := setExtra r.extra (toLowerStr (toUpperStr key)) value }
  | _ => r

/-- `Recurrence.parseRRule` (src/unnamed/part_004 lines 11-59): `null` on a
falsy argument, otherwise strip the optional marker, split on `;` and fold
the parts into a rule object.  The function has no failure path beyond the
`null` return. -/
def parseRRule (s : Str) : Option RRuleObj :=
  if s.isEmpty then none
  else some ((splitChar ';' (stripRuleMarker s)).foldl applyRulePart emptyRule)

/-- `Recurrence.formatRRuleDate` (src/unnamed/part_004 lines 300-309):
YYYYMMDDTHHMMSSZ from the UTC fields. -/
def formatRRuleDate (dt : JSDate) : Str :=
  intToStr dt.year ++ padStart2 (natToStr (dt.month + 1).toNat) ++
    padStart2 (natToStr dt.day.toNat) ++ 'T' ::
    (padStart2 (natToStr (dt.msOfDay / 3600000).toNat) ++
     padStart2 (natToStr (dt.msOfDay / 60000 % 60).toNat) ++
     padStart2 (natToStr (dt.msOfDay / 1000 % 60).toNat) ++ ['Z'])

/-- The `parts` array built by `Recurrence.formatRRule`: one entry per
truthy field, in the source's order FREQ, COUNT, UNTIL, INTERVAL, BYDAY,
BYMONTHDAY, BYMONTH, WKST.  JS truthiness: a string is truthy when
nonempty, a number when nonzero and not `NaN`, an array or `Date` always;
`INTERVAL` additionally requires `interval > 1`. -/
def formatRRuleParts (rule : RRuleObj) : List Str :=
  (match rule.freq with
   | some f => if f.isEmpty then [] else [kwFREQ ++ '=' :: toUpperStr f]
   | none => []) ++
  (match rule.count with
   | some (some n) => if n = 0 then [] else [kwCOUNT ++ '=' :: jsNumToStr (some n)]
   | _ => []) ++
  (match rule.untilDate with
   | some u => [kwUNTIL ++ '=' :: formatRRuleDate u]
   | none => []) ++
  (match rule.interval with
   | some (some n) => if 1 < n then [kwINTERVAL ++ '=' :: jsNumToStr (some n)] else []
   | _ => []) ++
  (match rule.byDay with
   | some l => if l.isEmpty then [] else [kwBYDAY ++ '=' :: intercalateChar ',' l]
   | none => []) ++
  (match rule.byMonthDay with
   | some l =>
     if l.isEmpty then []
     else [kwBYMONTHDAY ++ '=' :: intercalateChar ',' (l.map jsNumToStr)]
   | none => []) ++
  (match rule.byMonth with
   | some l =>
     if l.isEmpty then []
     else [kwBYMONTH ++ '=' :: intercalateChar ',' (l.map jsNumToStr)]
   | none => []) ++
  (match rule.wkst with
   | some w => if w.isEmpty then [] else [kwWKST ++ '=' :: w]
   | none => [])

/-- `Recurrence.formatRRule` (src/unnamed/part_004 lines 256-293): join the
truthy fields with `;` after the `RRULE:` marker; the empty string when no
field is present. -/
def formatRRule (rule : RRuleObj) : Str :=
  if (formatRRuleParts rule).isEmpty then []
  else kwRRULEc ++ intercalateChar ';' (formatRRuleParts rule)

/-- `Recurrence.matchesRule` (src/unnamed/part_004 lines 179-203): AND of
the BYMONTH, BYMONTHDAY and BYDAY filters; a filter whose list is absent or
empty is skipped.  (JS passes the unused original start as a third
argument.) -/
def matchesRule (date : JSDate) (rrule : RRuleObj) : Bool :=
  (match rrule.byMonth with
   | some l => if l.isEmpty then true else l.contains (some (date.month + 1))
   | none => true) &&
  (match rrule.byMonthDay with
   | some l => if l.isEmpty then true else l.contains (some date.day)
   | none => true) &&
  (match rrule.byDay with
   | some l =>
     if l.isEmpty then true else l.contains (getDayOfWeekCode (getDayJS date))
   | none => true)

/-- `Recurrence.getNextOccurrence` (src/unnamed/part_004 lines 213-239):
advance the candidate by `interval` days, `7·interval` days, `interval`
months or `interval` years; unknown frequencies fall back to daily. -/
def getNextOccurrence (current : JSDate) (freq : Str) (interval : Int) :
    JSDate :=
  if freq = sDAILY then
    mkDate current.year current.month (current.day + interval) current.msOfDay
  else if freq = sWEEKLY then
    mkDate current.year current.month (current.day + 7 * interval)
      current.msOfDay
  else if freq = sMONTHLY then
    mkDate current.year (current.month + interval) current.day current.msOfDay
  else if freq = sYEARLY then
    mkDate (current.year + interval) current.month current.day current.msOfDay
  else
    mkDate current.year current.month (current.day + interval) current.msOfDay

/-- The occurrence record built in the loop body of
`Recurrence.expandRecurrence` (src/unnamed/part_004 lines 146-154): spread
of the template with a fresh start, an end shifted by the duration when the
duration is truthy (nonzero), a synthetic uid, and recurrence metadata. -/
def mkOccurrence (event : Event) (eventDuration : Int) (cur : JSDate) :
    Event :=
  { event with
    start := some cur
    endTime :=
      if eventDuration ≠ 0 then some (dateFromMs (toEpochMs cur + eventDuration))
      else none
    uid := event.uid ++ '_' :: intToStr (toEpochMs cur)
    isRecurring := true
    recurringEventId := some event.uid
    recurrenceDate := some cur }

/-- The stall guard of `Recurrence.expandRecurrence` (line 164): stop when
the advanced candidate equals the start of the most recently pushed
occurrence. -/
def stallCheck (occs : List Event) (next : JSDate) : Bool :=
  match occs with
  | last :: _ =>
    match last.start with
    | some ls => toEpochMs next == toEpochMs ls
    | none => false
  | [] => false

/-- The UNTIL stop check of line 132: `rrule.until && currentDate >
rrule.until`. -/
def loopUntilHit (rrule : RRuleObj) (currentDate : JSDate) : Bool :=
  match rrule.untilDate with
  | some u => decide (toEpochMs u < toEpochMs currentDate)
  | none => false

/-- The range-end stop check of line 137: `rangeEnd && currentDate >
rangeEnd`. -/
def loopRangeEndHit (rangeEnd : Option JSDate) (currentDate : JSDate) :
    Bool :=
  match rangeEnd with
  | some re => decide (toEpochMs re < toEpochMs currentDate)
  | none => false

/-- The `inRange` test of line 142: no widened range start, or the
candidate is at or past it. -/
def loopInRange (expandedRangeStart : Option Int) (currentDate : JSDate) :
    Bool :=
  match expandedRangeStart with
  | some ers => decide (ers ≤ toEpochMs currentDate)
  | none => true

/-- The frequency string handed to `getNextOccurrence` (`rrule.freq`;
present whenever the loop runs, since a falsy `freq` returns early). -/
def loopFreq (rrule : RRuleObj) : Str :=
  match rrule.freq with
  | some f => f
  | none => []

/-- The `while (count < maxCount)` loop of `Recurrence.expandRecurrence`
(src/unnamed/part_004 lines 130-167), with the accumulated occurrences kept
newest-first (`occs.reverse` is the JS array) and an explicit fuel bound on
the number of executed loop bodies; `none` means the loop has not finished
within `fuel` iterations. -/
def expandLoop (event : Event) (rrule : RRuleObj) (eventDuration : Int)
    (interval : Int) (expandedRangeStart : Option Int)
    (rangeEnd : Option JSDate) (maxCount : Int) :
    Nat → List Event → Int → JSDate → Option (List Event)
  | fuel, occs, count, currentDate =>
    if ¬ count < maxCount then some occs.reverse
    else
      match fuel with
      | 0 => none
      | Nat.succ fuel =>
        if loopUntilHit rrule currentDate then some occs.reverse
        else if loopRangeEndHit rangeEnd currentDate then some occs.reverse
        else
          let push : Bool :=
            loopInRange expandedRangeStart currentDate &&
              matchesRule currentDate rrule
          let occs2 :=
            if push then mkOccurrence event eventDuration currentDate :: occs
            else occs
          let count2 := if push then count + 1 else count
          let next := getNextOccurrence currentDate (loopFreq rrule) interval
          if stallCheck occs2 next then some occs2.reverse
          else
            expandLoop event rrule eventDuration interval expandedRangeStart
              rangeEnd maxCount fuel occs2 count2 next

/-- JS truthiness of the `event.recurrence` field (`null`, `undefined` and
the empty string are falsy; objects are truthy). -/
def recTruthy : Option RecField → Bool
  | none => false
  | some (RecField.str s) => !s.isEmpty
  | some (RecField.obj _) => true

/-- JS truthiness of an optional string. -/
def strTruthy : Option Str → Bool
  | none => false
  | some s => !s.isEmpty

/-- Resolution of the rule in `Recurrence.expandRecurrence` (lines
110-112): a string is parsed, an object is used as is, otherwise
`event.rrule` is parsed. -/
def resolveRRule (event : Event) : Option RRuleObj :=
  match event.recurrence with
  | some (RecField.str s) => parseRRule s
  | some (RecField.obj r) => some r
  | none =>
    match event.rrule with
    | some s => parseRRule s
    | none => none

/-- JS truthiness of `rrule.freq` as checked on line 114. -/
def freqTruthy (r : RRuleObj) : Bool :=
  match r.freq with
  | some f => !f.isEmpty
  | none => false

/-- `Recurrence.expandRecurrence` (src/unnamed/part_004 lines 105-170).
An event without a (truthy) rule is returned as a one-element array; an
event whose rule resolves to `null` or has a falsy `freq` likewise.
Otherwise the walk starts at `event.start`; `maxCount` is
`rrule.count || maxOccurrences` and `interval` is `rrule.interval || 1`
(JS `||`: `0` and `NaN` fall through to the default).  A `rangeStart` is
widened backward by the template duration.  An absent `event.start` would
give JS `Invalid Date` candidates and is not modelled (the claims under
verification all supply a start); that case returns `some []`. -/
def expandRecurrence (fuel : Nat) (event : Event)
    (rangeStart rangeEnd : Option JSDate) (maxOccurrences : Int) :
    Option (List Event) :=
  if ¬ (recTruthy event.recurrence || strTruthy event.rrule) then some [event]
  else
    match resolveRRule event with
    | none => some [event]
    | some rrule =>
      if ¬ freqTruthy rrule then some [event]
      else
        match event.start with
        | none => some []
        | some startDate =>
          let eventDuration : Int :=
            match event.endTime with
            | some e => toEpochMs e - toEpochMs startDate
            | none => 0
          let interval : Int :=
            match rrule.interval with
            | some (some k) => if k = 0 then 1 else k
            | _ => 1
          let expandedRangeStart : Option Int :=
            rangeStart.map (fun rs => toEpochMs rs - eventDuration)
          let maxCount : Int :=
            match rrule.count with
            | some (some c) => if c = 0 then maxOccurrences else c
            | _ => maxOccurrences
          expandLoop event rrule eventDuration interval expandedRangeStart
            rangeEnd maxCount fuel [] 0 startDate

theorem mkDate_bounds (y m d ms : Int) :
    0 ≤ (mkDate y m d ms).month ∧ (mkDate y m d ms).month ≤ 11 ∧
      0 ≤ (mkDate y m d ms).msOfDay ∧ (mkDate y m d ms).msOfDay < 86400000 :=
  (mkDate_epochDay y m d ms).2.2

theorem dayNumber_add (y m d k : Int) :
    dayNumber y m (d + k) = dayNumber y m d + k := by
  simp only [dayNumber]
  omega

theorem epochDay_setDate (cur : JSDate) (k : Int) (h1 : 0 ≤ cur.month)
    (h2 : cur.month ≤ 11) (h5 : 0 ≤ cur.msOfDay)
    (h6 : cur.msOfDay < 86400000) :
    epochDay (mkDate cur.year cur.month (cur.day + k) cur.msOfDay) =
        epochDay cur + k ∧
      (mkDate cur.year cur.month (cur.day + k) cur.msOfDay).msOfDay =
        cur.msOfDay := by
  have h := mkDate_inRange cur.year cur.month (cur.day + k) cur.msOfDay
    h1 h2 h5 h6
  exact ⟨by rw [h.1, dayNumber_add]; rfl, h.2⟩

/-- The rule of the non-termination counterexample:
`FREQ=WEEKLY;BYDAY=MO`, no COUNT, no UNTIL. -/
def c1Rule : RRuleObj := { freq := some sWEEKLY, byDay := some [['M', 'O']] }

/-- An event anchored on Tuesday 2024-01-02 whose weekly rule selects
Mondays only: the walk can never produce a matching candidate. -/
def c1Event : Event :=
  { title := ['t'], start := some (mkDate 2024 0 2 0), uid := ['e', '1'],
    recurrence := some (RecField.obj c1Rule) }

theorem c1_step (fuel : Nat) (cur : JSDate) (hd : getDayJS cur = 2) :
    expandLoop c1Event c1Rule 0 1 none none 730 (fuel + 1) [] 0 cur =
      expandLoop c1Event c1Rule 0 1 none none 730 fuel [] 0
        (getNextOccurrence cur sWEEKLY 1) := by
  have hmatch : matchesRule cur c1Rule = false := by
    simp only [matchesRule, c1Rule]
    rw [hd]
    decide
  simp only [expandLoop, (rfl : c1Rule.untilDate = none),
    (rfl : c1Rule.freq = some sWEEKLY), hmatch]
  simp only [stallCheck, Bool.and_false]
  rfl

theorem c1_next_invariant (cur : JSDate) (h1 : 0 ≤ cur.month)
    (h2 : cur.month ≤ 11) (h5 : 0 ≤ cur.msOfDay)
    (h6 : cur.msOfDay < 86400000) (hd : getDayJS cur = 2) :
    0 ≤ (getNextOccurrence cur sWEEKLY 1).month ∧
      (getNextOccurrence cur sWEEKLY 1).month ≤ 11 ∧
      0 ≤ (getNextOccurrence cur sWEEKLY 1).msOfDay ∧
      (getNextOccurrence cur sWEEKLY 1).msOfDay < 86400000 ∧
      getDayJS (getNextOccurrence cur sWEEKLY 1) = 2 := by
  have hne : ¬ sWEEKLY = sDAILY := by decide
  have hgo : getNextOccurrence cur sWEEKLY 1 =
      mkDate cur.year cur.month (cur.day + 7 * 1) cur.msOfDay := by
    simp only [getNextOccurrence]
    rw [if_neg hne]
    simp
  have hb := mkDate_bounds cur.year cur.month (cur.day + 7 * 1) cur.msOfDay
  have he := epochDay_setDate cur (7 * 1) h1 h2 h5 h6
  refine ⟨by rw [hgo]; exact hb.1, by rw [hgo]; exact hb.2.1,
    by rw [hgo]; exact hb.2.2.1, by rw [hgo]; exact hb.2.2.2, ?_⟩
  rw [hgo]
  simp only [getDayJS] at hd ⊢
  rw [he.1]
  omega

theorem c1_loop : ∀ (fuel : Nat) (cur : JSDate), 0 ≤ cur.month →
    cur.month ≤ 11 → 0 ≤ cur.msOfDay → cur.msOfDay < 86400000 →
    getDayJS cur = 2 →
    expandLoop c1Event c1Rule 0 1 none none 730 fuel [] 0 cur = none := by
  intro fuel
  induction fuel with
  | zero =>
    intro cur h1 h2 h5 h6 hd
    simp only [expandLoop]
    rw [if_neg (by norm_num)]
  | succ fuel ih =>
    intro cur h1 h2 h5 h6 hd
    rw [c1_step fuel cur hd]
    have hnext := c1_next_invariant cur h1 h2 h5 h6 hd
    exact ih _ hnext.1 hnext.2.1 hnext.2.2.1 hnext.2.2.2.1 hnext.2.2.2.2

/-- C1: the claim asserts that `expandOccurrences` terminates for every
event, rule and query range with at most `maxOccurrences` occurrences.  The
code violates this: for the event `c1Event` (weekly rule whose BYDAY filter
never matches the anchor's weekday) with an unbounded query range, no
amount of loop fuel finishes the walk — no stop condition can ever fire
(no matching occurrence is ever pushed, so neither the count bound nor the
stall guard applies, and there is no UNTIL and no range end), which is a
non-termination bug acknowledged by the code's own "Safety check to
prevent infinite loops" comment. -/
theorem c1_expandRecurrence_diverges :
    ∀ fuel : Nat, expandRecurrence fuel c1Event none none 730 = none := by
  intro fuel
  have h0 : expandRecurrence fuel c1Event none none 730 =
      expandLoop c1Event c1Rule 0 1 none none 730 fuel [] 0
        (mkDate 2024 0 2 0) := rfl
  rw [h0]
  exact c1_loop fuel _ (by decide) (by decide) (by decide) (by decide)
    (by decide)

/-- The DAILY step of `getNextOccurrence` with interval `k`, as a function
(the expected-output description used by the C2 statement). -/
def stepDaily (k : Int) (s : JSDate) : JSDate :=
  mkDate s.year s.month (s.day + k) s.msOfDay

/-- The expected candidate sequence of a filter-free DAILY walk: `m` dates
starting at `s`, each obtained from the previous by the DAILY step. -/
def dailyStarts (k : Int) : Nat → JSDate → List JSDate
  | 0, _ => []
  | m + 1, s => s :: dailyStarts k m (stepDaily k s)

theorem getNext_daily (cur : JSDate) (k : Int) :
    getNextOccurrence cur sDAILY k = stepDaily k cur := by
  simp only [getNextOccurrence, stepDaily]
  simp

theorem dailyStarts_length (k : Int) :
    ∀ (m : Nat) (s : JSDate), (dailyStarts k m s).length = m := by
  intro m
  induction m with
  | zero => intro s; rfl
  | succ m ih => intro s; simp [dailyStarts, ih]

theorem stepDaily_bounds (k : Int) (s : JSDate) :
    0 ≤ (stepDaily k s).month ∧ (stepDaily k s).month ≤ 11 ∧
      0 ≤ (stepDaily k s).msOfDay ∧ (stepDaily k s).msOfDay < 86400000 :=
  mkDate_bounds s.year s.month (s.day + k) s.msOfDay

theorem stepDaily_toEpochMs (k : Int) (s : JSDate) (h1 : 0 ≤ s.month)
    (h2 : s.month ≤ 11) (h5 : 0 ≤ s.msOfDay) (h6 : s.msOfDay < 86400000) :
    toEpochMs (stepDaily k s) = toEpochMs s + k * 86400000 := by
  have h := epochDay_setDate s k h1 h2 h5 h6
  simp only [toEpochMs, stepDaily]
  rw [h.1, h.2]
  ring

theorem dailyStarts_chain (k : Int) : ∀ (m : Nat) (s : JSDate), 0 ≤ s.month →
    s.month ≤ 11 → 0 ≤ s.msOfDay → s.msOfDay < 86400000 →
    List.Chain' (fun a b => toEpochMs b = toEpochMs a + k * 86400000)
      (dailyStarts k m s) := by
  intro m
  induction m with
  | zero => intro s _ _ _ _; exact List.chain'_nil
  | succ m ih =>
    intro s h1 h2 h5 h6
    have hb := stepDaily_bounds k s
    rw [dailyStarts, List.chain'_cons']
    refine ⟨?_, ih (stepDaily k s) hb.1 hb.2.1 hb.2.2.1 hb.2.2.2⟩
    intro y hy
    cases m with
    | zero =>
      have hnil : dailyStarts k 0 (stepDaily k s) = [] := rfl
      rw [hnil] at hy
      simp at hy
    | succ m =>
      simp only [dailyStarts, List.head?_cons, Option.mem_def,
        Option.some_inj] at hy
      rw [← hy]
      exact stepDaily_toEpochMs k s h1 h2 h5 h6

theorem c2_loop (ev : Event) (r : RRuleObj) (dur k n : Int)
    (hfreq : r.freq = some sDAILY) (hu : r.untilDate = none)
    (hbd : r.byDay = none) (hbmd : r.byMonthDay = none)
    (hbm : r.byMonth = none) (hk : 1 ≤ k) :
    ∀ (m : Nat) (fuel : Nat) (cur : JSDate) (occs : List Event) (count : Int),
      count + m = n → m ≤ fuel → 0 ≤ cur.month → cur.month ≤ 11 →
      0 ≤ cur.msOfDay → cur.msOfDay < 86400000 →
      expandLoop ev r dur k none none n fuel occs count cur =
        some (occs.reverse ++
          (dailyStarts k m cur).map (mkOccurrence ev dur)) := by
  intro m
  induction m with
  | zero =>
    intro fuel cur occs count hc hf h1 h2 h5 h6
    have hnil : (dailyStarts k 0 cur).map (mkOccurrence ev dur) = [] := rfl
    rw [hnil, List.append_nil]
    cases fuel with
    | zero =>
      simp only [expandLoop]
      rw [if_pos (by omega)]
    | succ f =>
      simp only [expandLoop]
      rw [if_pos (by omega)]
  | succ m ih =>
    intro fuel cur occs count hc hf h1 h2 h5 h6
    obtain ⟨f, rfl⟩ : ∃ f, fuel = f + 1 := ⟨fuel - 1, by omega⟩
    have hmatch : matchesRule cur r = true := by
      simp [matchesRule, hbd, hbmd, hbm]
    have hne : toEpochMs (stepDaily k cur) ≠ toEpochMs cur := by
      rw [stepDaily_toEpochMs k cur h1 h2 h5 h6]
      omega
    have hstall :
        stallCheck (mkOccurrence ev dur cur :: occs)
          (getNextOccurrence cur sDAILY k) = false := by
      simp only [stallCheck, mkOccurrence, getNext_daily]
      simp [hne]
    simp only [expandLoop, loopUntilHit, loopRangeEndHit, loopInRange,
      loopFreq, hu, hfreq, hmatch]
    rw [if_neg (by omega)]
    simp only [Bool.true_and, Bool.and_true, if_pos rfl, reduceIte]
    rw [hstall]
    simp only [Bool.false_eq_true, if_false, reduceIte]
    rw [getNext_daily]
    have hb := stepDaily_bounds k cur
    rw [ih f (stepDaily k cur) (mkOccurrence ev dur cur :: occs) (count + 1)
      (by omega) (by omega) hb.1 hb.2.1 hb.2.2.1 hb.2.2.2]
    simp [dailyStarts, List.append_assoc]

/-- C2: for an event whose rule is `{freq: DAILY, interval: k, count: n}`
(`k ≥ 1`, `n ≥ 1`) with no BY-filters and no UNTIL, `expandOccurrences`
over an unbounded range (no rangeStart, no rangeEnd) yields exactly `n`
occurrences; the occurrence starts are the sequence that begins at the
event's own start and advances by the DAILY step of `k` days each time,
and consecutive starts differ by exactly `k · 86400000` ms.  The fuel
bound `n.toNat ≤ fuel` expresses that the JS loop, which runs without a
fuel limit, reaches this result. -/
theorem c2_daily_count_exact (ev : Event) (r : RRuleObj) (s : JSDate)
    (k n : Int) (fuel : Nat)
    (hrec : ev.recurrence = some (RecField.obj r))
    (hfreq : r.freq = some sDAILY) (hcount : r.count = some (some n))
    (hint : r.interval = some (some k)) (hu : r.untilDate = none)
    (hbd : r.byDay = none) (hbmd : r.byMonthDay = none)
    (hbm : r.byMonth = none) (hstart : ev.start = some s) (h1 : 0 ≤ s.month)
    (h2 : s.month ≤ 11) (h5 : 0 ≤ s.msOfDay) (h6 : s.msOfDay < 86400000)
    (hk : 1 ≤ k) (hn : 1 ≤ n) (hfuel : n.toNat ≤ fuel) :
    ∃ occs : List Event,
      expandRecurrence fuel ev none none 730 = some occs ∧
      occs.length = n.toNat ∧
      occs.map Event.start = (dailyStarts k n.toNat s).map some ∧
      (dailyStarts k n.toNat s).head? = some s ∧
      List.Chain' (fun a b => toEpochMs b = toEpochMs a + k * 86400000)
        (dailyStarts k n.toNat s) := by
  have hkey := c2_loop ev r
    (match ev.endTime with
     | some e => toEpochMs e - toEpochMs s
     | none => 0) k n hfreq hu hbd hbmd hbm hk n.toNat fuel s [] 0
    (by omega) hfuel h1 h2 h5 h6
  have hexp : expandRecurrence fuel ev none none 730 =
      expandLoop ev r
        (match ev.endTime with
         | some e => toEpochMs e - toEpochMs s
         | none => 0) k none none n fuel [] 0 s := by
    simp only [expandRecurrence, hrec, hstart, hint, hcount, recTruthy,
      strTruthy, freqTruthy, hfreq, resolveRRule, Option.map]
    rw [if_neg (by simp)]
    rw [if_neg (by simp [sDAILY])]
    rw [if_neg (by omega), if_neg (by omega)]
  refine ⟨(dailyStarts k n.toNat s).map
    (mkOccurrence ev
      (match ev.endTime with
       | some e => toEpochMs e - toEpochMs s
       | none => 0)), ?_, ?_, ?_, ?_, ?_⟩
  · rw [hexp, hkey]
    simp
  · rw [List.length_map, dailyStarts_length]
  · rw [List.map_map]
    have hcomp : (Event.start ∘ mkOccurrence ev
        (match ev.endTime with
         | some e => toEpochMs e - toEpochMs s
         | none => 0)) = some := by
      funext x
      simp [mkOccurrence]
    rw [hcomp]
  · obtain ⟨m, hm⟩ : ∃ m, n.toNat = m + 1 := ⟨n.toNat - 1, by omega⟩
    rw [hm]
    rfl
  · exact dailyStarts_chain k n.toNat s h1 h2 h5 h6

/-- The concrete rule of the C2 witness: DAILY, interval 2, count 3. -/
def c2Rule : RRuleObj :=
  { freq := some sDAILY, count := some (some 3), interval := some (some 2) }

/-- The concrete event of the C2 witness, starting 2025-06-10. -/
def c2Event : Event :=
  { title := ['t'], start := some (mkDate 2025 5 10 0), uid := ['e', '2'],
    recurrence := some (RecField.obj c2Rule) }

/-- Witness for C2 at the concrete event `c2Event` with `k = 2`, `n = 3`. -/
theorem c2_daily_count_exact_witness :
    ∃ occs : List Event,
      expandRecurrence 3 c2Event none none 730 = some occs ∧
      occs.length = (3 : Int).toNat ∧
      occs.map Event.start =
        (dailyStarts 2 (3 : Int).toNat (mkDate 2025 5 10 0)).map some ∧
      (dailyStarts 2 (3 : Int).toNat (mkDate 2025 5 10 0)).head? =
        some (mkDate 2025 5 10 0) ∧
      List.Chain' (fun a b => toEpochMs b = toEpochMs a + 2 * 86400000)
        (dailyStarts 2 (3 : Int).toNat (mkDate 2025 5 10 0)) :=
  c2_daily_count_exact c2Event c2Rule (mkDate 2025 5 10 0) 2 3 3 rfl rfl rfl
    rfl rfl rfl rfl rfl rfl (by decide) (by decide) (by decide) (by decide)
    (by decide) (by decide) (by decide)

theorem expandLoop_preserves (ev : Event) (r : RRuleObj) (dur ivl : Int)
    (ers : Option Int) (re : Option JSDate) (mc : Int) (P : Event → Prop)
    (hP : ∀ cur : JSDate, P (mkOccurrence ev dur cur)) :
    ∀ (fuel : Nat) (occs : List Event) (count : Int) (cur : JSDate)
      (out : List Event), (∀ o ∈ occs, P o) →
      expandLoop ev r dur ivl ers re mc fuel occs count cur = some out →
      ∀ o ∈ out, P o := by
  intro fuel
  induction fuel with
  | zero =>
    intro occs count cur out hacc heq
    simp only [expandLoop] at heq
    by_cases hc : count < mc
    · rw [if_neg (by omega)] at heq
      exact absurd heq (by simp)
    · rw [if_pos (by omega)] at heq
      obtain rfl : occs.reverse = out := by simpa using heq
      intro o ho
      exact hacc o (List.mem_reverse.mp ho)
  | succ f ih =>
    intro occs count cur out hacc heq
    simp only [expandLoop] at heq
    by_cases hc : count < mc
    case neg =>
      rw [if_pos (by omega)] at heq
      obtain rfl : occs.reverse = out := by simpa using heq
      intro o ho
      exact hacc o (List.mem_reverse.mp ho)
    case pos =>
      rw [if_neg (by omega)] at heq
      by_cases hu : loopUntilHit r cur = true
      · rw [if_pos hu] at heq
        obtain rfl : occs.reverse = out := by simpa using heq
        intro o ho
        exact hacc o (List.mem_reverse.mp ho)
      · rw [if_neg hu] at heq
        by_cases hre : loopRangeEndHit re cur = true
        · rw [if_pos hre] at heq
          obtain rfl : occs.reverse = out := by simpa using heq
          intro o ho
          exact hacc o (List.mem_reverse.mp ho)
        · rw [if_neg hre] at heq
          cases hb : loopInRange ers cur && matchesRule cur r with
          | false =>
            rw [hb] at heq
            simp only [Bool.false_eq_true, if_false] at heq
            by_cases hst : stallCheck occs
                (getNextOccurrence cur (loopFreq r) ivl) = true
            · rw [if_pos hst] at heq
              obtain rfl : occs.reverse = out := by simpa using heq
              intro o ho
              exact hacc o (List.mem_reverse.mp ho)
            · rw [if_neg hst] at heq
              exact ih _ _ _ _ hacc heq
          | true =>
            rw [hb] at heq
            simp only [if_pos rfl, if_true] at heq
            have hacc2 : ∀ o ∈ mkOccurrence ev dur cur :: occs, P o := by
              intro o ho
              rcases List.mem_cons.mp ho with h | h
              · rw [h]; exact hP cur
              · exact hacc o h
            by_cases hst : stallCheck (mkOccurrence ev dur cur :: occs)
                (getNextOccurrence cur (loopFreq r) ivl) = true
            · rw [if_pos hst] at heq
              obtain rfl : (mkOccurrence ev dur cur :: occs).reverse = out := by
                simpa using heq
              intro o ho
              exact hacc2 o (List.mem_reverse.mp ho)
            · rw [if_neg hst] at heq
              exact ih _ _ _ _ hacc2 heq

/-- C3 (amended): duration preservation holds for every occurrence whenever
`event.end` is set and the template duration is nonzero.  (The original
claim also asserted the zero-duration case, which the code violates: a zero
`eventDuration` is falsy, so the occurrence's end is `null` — see the
counterexample.) -/
theorem c3_duration_preserved (fuel : Nat) (ev : Event)
    (rs re : Option JSDate) (mo : Int) (s e : JSDate) (occs : List Event)
    (hstart : ev.start = some s) (hend : ev.endTime = some e)
    (hdur : toEpochMs e - toEpochMs s ≠ 0)
    (hexp : expandRecurrence fuel ev rs re mo = some occs) :
    ∀ o ∈ occs, ∃ os oe, o.start = some os ∧ o.endTime = some oe ∧
      toEpochMs oe - toEpochMs os = toEpochMs e - toEpochMs s := by
  have hself : ∃ os oe, ev.start = some os ∧ ev.endTime = some oe ∧
      toEpochMs oe - toEpochMs os = toEpochMs e - toEpochMs s :=
    ⟨s, e, hstart, hend, rfl⟩
  simp only [expandRecurrence] at hexp
  split at hexp
  · obtain rfl : [ev] = occs := by simpa using hexp
    intro o ho
    rcases List.mem_singleton.mp ho with rfl
    exact hself
  · split at hexp
    · obtain rfl : [ev] = occs := by simpa using hexp
      intro o ho
      rcases List.mem_singleton.mp ho with rfl
      exact hself
    · rename_i rrule hrule
      split at hexp
      · obtain rfl : [ev] = occs := by simpa using hexp
        intro o ho
        rcases List.mem_singleton.mp ho with rfl
        exact hself
      · split at hexp
        · rename_i hnone
          rw [hnone] at hstart
          exact absurd hstart (by simp)
        · rename_i startDate hsome
          rw [hstart] at hsome
          injection hsome with h
          subst h
          rw [hend] at hexp
          refine expandLoop_preserves ev rrule (toEpochMs e - toEpochMs s)
            _ _ _ _ _ ?_ fuel [] 0 s occs (by simp) hexp
          intro cur
          refine ⟨cur, dateFromMs (toEpochMs cur + (toEpochMs e - toEpochMs s)),
            rfl, ?_, ?_⟩
          · simp only [mkOccurrence]
            rw [if_pos hdur]
          · rw [toEpochMs_dateFromMs]
            ring

/-- The zero-duration recurring event of the C3 counterexample: a DAILY
COUNT=1 rule with `end = start`. -/
def c3Event : Event :=
  { title := ['t'], start := some (mkDate 2025 0 1 0),
    endTime := some (mkDate 2025 0 1 0), uid := ['e', '3'],
    recurrence := some (RecField.obj
      { freq := some sDAILY, count := some (some 1) }) }

/-- C3 counterexample: `c3Event` has `end` set (duration zero), yet its
single occurrence has no end at all, so `o.end − o.start` does not equal
the template duration — the claim's "including when the duration is zero"
fails on the code. -/
theorem c3_zero_duration_cex :
    c3Event.endTime = some (mkDate 2025 0 1 0) ∧
      ¬ (∀ occs : List Event,
          expandRecurrence 1 c3Event none none 730 = some occs →
          ∀ o ∈ occs, ∃ os oe, o.start = some os ∧ o.endTime = some oe ∧
            toEpochMs oe - toEpochMs os =
              toEpochMs (mkDate 2025 0 1 0) - toEpochMs (mkDate 2025 0 1 0)) := by
  constructor
  · rfl
  · intro h
    have hres : expandRecurrence 1 c3Event none none 730 =
        some [mkOccurrence c3Event 0 (mkDate 2025 0 1 0)] := by decide
    obtain ⟨os, oe, _, hoe, _⟩ :=
      h _ hres (mkOccurrence c3Event 0 (mkDate 2025 0 1 0)) (by simp)
    simp only [mkOccurrence] at hoe
    rw [if_neg (by omega)] at hoe
    exact absurd hoe (by simp)

/-- The one-hour recurring event of the C3 witness. -/
def c3wEvent : Event :=
  { title := ['t'], start := some (mkDate 2025 0 1 0),
    endTime := some (mkDate 2025 0 1 3600000), uid := ['e', '4'],
    recurrence := some (RecField.obj
      { freq := some sDAILY, count := some (some 2) }) }

/-- Witness for C3 at the concrete one-hour event `c3wEvent`. -/
theorem c3_duration_preserved_witness :
    ∃ occs : List Event,
      expandRecurrence 2 c3wEvent none none 730 = some occs ∧
      ∀ o ∈ occs, ∃ os oe, o.start = some os ∧ o.endTime = some oe ∧
        toEpochMs oe - toEpochMs os =
          toEpochMs (mkDate 2025 0 1 3600000) - toEpochMs (mkDate 2025 0 1 0) := by
  have hsome : (expandRecurrence 2 c3wEvent none none 730).isSome = true := by
    decide
  obtain ⟨occs, hres⟩ := Option.isSome_iff_exists.mp hsome
  exact ⟨occs, hres,
    c3_duration_preserved 2 c3wEvent none none 730 (mkDate 2025 0 1 0)
      (mkDate 2025 0 1 3600000) occs rfl rfl (by decide) hres⟩

/-- The in-memory store of `CalendarCore` (src/src/calendar-core.js): an
insertion-ordered list of events. -/
structure CalendarCore where
  events : List Event
deriving DecidableEq

/-- Start key used by the range-query sort (`new Date(a.start)` in ms).  An
absent start would give `NaN` in JS; it is keyed 0 here, which no claim
observes (range results are only measured by membership and length). -/
def startKeyMs (e : Event) : Int :=
  match e.start with
  | some s => toEpochMs s
  | none => 0

/-- `CalendarCore.getEventsForDate` (lines 32-41): events whose start falls
on the same calendar day (`setHours(0,0,0,0)` on both sides; in the UTC
model this zeroes `msOfDay`). -/
def getEventsForDate (core : CalendarCore) (date : JSDate) : List Event :=
  core.events.filter (fun event =>
    match event.start with
    | some s =>
      toEpochMs { s with msOfDay := 0 } == toEpochMs { date with msOfDay := 0 }
    | none => false)

/-- `CalendarCore.getEventsInRange` (lines 49-57): events with start in
`[start, end]`, sorted ascending by start (stable sort). -/
def getEventsInRange (core : CalendarCore) (startDate endDate : JSDate) :
    List Event :=
  (core.events.filter (fun event =>
    match event.start with
    | some s =>
      decide (toEpochMs startDate ≤ toEpochMs s) &&
        decide (toEpochMs s ≤ toEpochMs endDate)
    | none => false)).mergeSort
    (fun a b => decide (startKeyMs a ≤ startKeyMs b))

/-- `CalendarCore.getEventsForMonth` (lines 65-69). -/
def getEventsForMonth (core : CalendarCore) (year month : Int) : List Event :=
  getEventsInRange core (mkDate year month 1 0) (mkDate year (month + 1) 0 0)

/-- `CalendarCore.isToday` (lines 114-121), with the ambient `new Date()`
made an explicit `today` parameter. -/
def isTodayJS (today date : JSDate) : Bool :=
  today.year == date.year && today.month == date.month &&
    today.day == date.day

/-- One cell of the month grid: blank cells are `{ day: null, events: [] }`
(their absent `isToday` is falsy, modelled `false`). -/
structure GridCell where
  day : Option Int
  date : Option JSDate
  events : List Event
  isToday : Bool
deriving DecidableEq

/-- The value returned by `CalendarCore.getMonthGrid`. -/
structure MonthGridData where
  year : Int
  month : Int
  grid : List GridCell
  totalEvents : Int
deriving DecidableEq

/-- `new Date(year, month, 1).getDay()` — the weekday index of day 1
(line 78). -/
def gridFirstDay (year month : Int) : Int := getDayJS (mkDate year month 1 0)

/-- `new Date(year, month + 1, 0).getDate()` — the number of days in the
month (line 79). -/
def gridDaysInMonth (year month : Int) : Int := (mkDate year (month + 1) 0 0).day

/-- `CalendarCore.getMonthGrid` (lines 77-107): leading blank cells equal to
the weekday index of day 1, then one cell per day, no trailing padding. -/
def getMonthGrid (core : CalendarCore) (today : JSDate) (year month : Int) :
    MonthGridData :=
  ⟨year, month,
    List.replicate (gridFirstDay year month).toNat ⟨none, none, [], false⟩ ++
      (List.range (gridDaysInMonth year month).toNat).map (fun i =>
        ⟨some ((i : Int) + 1), some (mkDate year month ((i : Int) + 1) 0),
          getEventsForDate core (mkDate year month ((i : Int) + 1) 0),
          isTodayJS today (mkDate year month ((i : Int) + 1) 0)⟩),
    (getEventsForMonth core year month).length⟩

/-- `CalendarCore.getConflictingEvents` (lines 175-200): no conflicts when
the query lacks start or end; otherwise the stored events with a different
uid, a non-null end, and strict half-open overlap.  A stored event lacking
a start gives `NaN` comparisons in JS, never a conflict — hence the `none`
branch. -/
def getConflictingEvents (core : CalendarCore) (event : Event) :
    List Event :=
  match event.start, event.endTime with
  | some qs, some qe =>
    core.events.filter (fun e =>
      if e.uid == event.uid then false
      else
        match e.endTime with
        | none => false
        | some ee =>
          match e.start with
          | some es =>
            decide (toEpochMs qs < toEpochMs ee) &&
              decide (toEpochMs es < toEpochMs qe)
          | none => false)
  | _, _ => []

/-- `CalendarCore.getEventsByStatus` (lines 272-275): strict equality of the
stored status against the upper-cased query. -/
def getEventsByStatus (core : CalendarCore) (status : Str) : List Event :=
  core.events.filter (fun event =>
    match event.status with
    | some st => st == toUpperStr status
    | none => false)

/-- C6: `conflicts(e)` with both query bounds set returns exactly the
stored events with a different uid, a non-null end, and strict half-open
overlap `qs < xe ∧ xs < qe`; a query lacking start or end yields no
conflicts (so in particular the query event itself and end-less events
never appear). -/
theorem c6_conflicts_exact (core : CalendarCore) (ev : Event) :
    ((ev.start = none ∨ ev.endTime = none) →
      getConflictingEvents core ev = []) ∧
    (∀ qs qe, ev.start = some qs → ev.endTime = some qe →
      ∀ x, x ∈ getConflictingEvents core ev ↔
        x ∈ core.events ∧ x.uid ≠ ev.uid ∧
        ∃ xs xe, x.start = some xs ∧ x.endTime = some xe ∧
          toEpochMs qs < toEpochMs xe ∧ toEpochMs xs < toEpochMs qe) := by
  constructor
  · intro h
    rcases h with h | h
    · simp [getConflictingEvents, h]
    · rcases hs : ev.start with _ | qs <;> simp [getConflictingEvents, hs, h]
  · intro qs qe hqs hqe x
    simp only [getConflictingEvents, hqs, hqe, List.mem_filter,
      and_congr_right_iff]
    intro _
    by_cases hu : x.uid = ev.uid
    · rw [if_pos (by simp [hu])]
      simp [hu]
    · rw [if_neg (by simp [hu])]
      rcases he : x.endTime with _ | xe
      · simp [hu]
      · rcases hs : x.start with _ | xs
        · simp [hu, hs]
        · simp only [Bool.and_eq_true, decide_eq_true_eq]
          constructor
          · rintro ⟨h1, h2⟩
            exact ⟨hu, xs, xe, rfl, rfl, h1, h2⟩
          · rintro ⟨_, xs2, xe2, hxs2, hxe2, h1, h2⟩
            injection hxs2 with e1
            injection hxe2 with e2
            subst e1
            subst e2
            exact ⟨h1, h2⟩

/-- The three events of the spec's conflict example: A 10:00-11:00,
B 10:30-11:30, C 12:00-13:00 on 2025-03-10. -/
def c6EventA : Event :=
  { title := ['A'], uid := ['a'], start := some (mkDate 2025 2 10 36000000),
    endTime := some (mkDate 2025 2 10 39600000) }

/-- Event B of the C6 witness (overlaps A). -/
def c6EventB : Event :=
  { title := ['B'], uid := ['b'], start := some (mkDate 2025 2 10 37800000),
    endTime := some (mkDate 2025 2 10 41400000) }

/-- Event C of the C6 witness (disjoint from A). -/
def c6EventC : Event :=
  { title := ['C'], uid := ['c'], start := some (mkDate 2025 2 10 43200000),
    endTime := some (mkDate 2025 2 10 46800000) }

/-- The store of the C6 witness. -/
def c6Core : CalendarCore := ⟨[c6EventA, c6EventB, c6EventC]⟩

/-- Witness for C6: B conflicts with A, C does not, and a query without an
end yields no conflicts. -/
theorem c6_conflicts_exact_witness :
    c6EventB ∈ getConflictingEvents c6Core c6EventA ∧
      c6EventC ∉ getConflictingEvents c6Core c6EventA ∧
      getConflictingEvents c6Core { c6EventA with endTime := none } = [] := by
  refine ⟨?_, ?_, ?_⟩
  · exact ((c6_conflicts_exact c6Core c6EventA).2 _ _ rfl rfl c6EventB).mpr
      ⟨by decide, by decide, mkDate 2025 2 10 37800000,
        mkDate 2025 2 10 41400000, rfl, rfl, by decide, by decide⟩
  · intro hmem
    obtain ⟨_, _, xs, xe, hxs, hxe, h1, h2⟩ :=
      ((c6_conflicts_exact c6Core c6EventA).2 _ _ rfl rfl c6EventC).mp hmem
    injection hxs with e1
    injection hxe with e2
    subst e1
    subst e2
    exact absurd h2 (by decide)
  · exact (c6_conflicts_exact c6Core
      { c6EventA with endTime := none }).1 (Or.inr rfl)

/-- C8 (amended): `byStatus` upper-cases the query and then requires strict
equality, so an event is returned exactly when its stored status equals the
upper-cased query verbatim.  (The original claim's full case-insensitivity
fails: a stored lower-case status is never matched — see the
counterexample.) -/
theorem c8_byStatus_uppercase_match (core : CalendarCore) (status : Str)
    (x : Event) :
    x ∈ getEventsByStatus core status ↔
      x ∈ core.events ∧ x.status = some (toUpperStr status) := by
  simp only [getEventsByStatus, List.mem_filter, and_congr_right_iff]
  intro _
  rcases hx : x.status with _ | st
  · simp
  · simp [beq_iff_eq]

/-- An event stored with the lower-case status string confirmed. -/
def c8Event : Event :=
  { title := ['t'], uid := ['u'],
    status := some ['c', 'o', 'n', 'f', 'i', 'r', 'm', 'e', 'd'] }

/-- The store of the C8 counterexample. -/
def c8Core : CalendarCore := ⟨[c8Event]⟩

/-- C8 counterexample: the stored status confirmed equals the query
CONFIRMED ignoring case, yet `byStatus` returns nothing — the claimed
case-insensitive match fails on the stored side. -/
theorem c8_case_insensitive_cex :
    c8Event ∈ c8Core.events ∧
      toLowerStr (c8Event.status.getD []) =
        toLowerStr ['C', 'O', 'N', 'F', 'I', 'R', 'M', 'E', 'D'] ∧
      getEventsByStatus c8Core ['C', 'O', 'N', 'F', 'I', 'R', 'M', 'E', 'D'] =
        [] := by
  decide

theorem gridDaysInMonth_eq (year month : Int) (h1 : 0 ≤ month)
    (h2 : month ≤ 11) : gridDaysInMonth year month = monthLength year month := by
  have h28 := monthLength_bounds year month h1 h2
  by_cases hm : month = 11
  · subst hm
    have hlen := monthLength_eleven year
    show (normDayGo 24 (year + 1) 0 0).2.2 = monthLength year 11
    rw [show (24 : Nat) = 23 + 1 from rfl, normDayGo_succ]
    rw [if_pos (by norm_num), if_pos rfl]
    have ey2 : year + 1 - 1 = year := by ring
    rw [ey2]
    rw [show (23 : Nat) = 22 + 1 from rfl, normDayGo_succ]
    rw [if_neg (by omega), if_neg (by omega)]
    show 0 + monthLength year 11 = monthLength year 11
    omega
  · show (normDayGo 24 (year + (month + 1) / 12) ((month + 1) % 12) 0).2.2 =
      monthLength year month
    have ey : year + (month + 1) / 12 = year := by omega
    have em : (month + 1) % 12 = month + 1 := by omega
    rw [ey, em]
    rw [show (24 : Nat) = 23 + 1 from rfl, normDayGo_succ]
    rw [if_pos (by norm_num), if_neg (by omega)]
    have e3 : month + 1 - 1 = month := by ring
    rw [e3]
    rw [show (23 : Nat) = 22 + 1 from rfl, normDayGo_succ]
    rw [if_neg (by omega), if_neg (by omega)]
    show 0 + monthLength year month = monthLength year month
    omega

theorem countRange_eq : ∀ (N : Nat) (t : Int),
    (List.range N).countP (fun i : Nat => t == (i : Int) + 1) =
      if 1 ≤ t ∧ t ≤ (N : Int) then 1 else 0 := by
  intro N
  induction N with
  | zero =>
    intro t
    rw [if_neg (by omega)]
    rfl
  | succ N ih =>
    intro t
    rw [List.range_succ, List.countP_append, ih t]
    have hsingle : List.countP (fun i : Nat => t == (i : Int) + 1) [N] =
        if t = (N : Int) + 1 then 1 else 0 := by
      simp [List.countP_cons, beq_iff_eq]
    rw [hsingle]
    by_cases h1t : 1 ≤ t
    · by_cases h2t : t ≤ (N : Int)
      · rw [if_pos ⟨h1t, h2t⟩, if_neg (by omega), if_pos (by push_cast; omega)]
      · by_cases h3t : t = (N : Int) + 1
        · rw [if_neg (by omega), if_pos h3t, if_pos (by push_cast; omega)]
        · rw [if_neg (by omega), if_neg h3t, if_neg (by push_cast; omega)]
    · rw [if_neg (by omega), if_neg (by omega), if_neg (by push_cast; omega)]

/-- C7: the month grid of a (0-based, in-range) month has exactly
`firstDay + daysInMonth` cells (leading blanks plus one cell per day, no
trailing padding), and — for a normalized `today` — exactly one cell is
flagged `isToday` precisely when today's year and month are the queried
ones. -/
theorem c7_monthGrid (core : CalendarCore) (today : JSDate)
    (year month : Int) (h1 : 0 ≤ month) (h2 : month ≤ 11)
    (ht1 : 1 ≤ today.day)
    (ht2 : today.day ≤ monthLength today.year today.month) :
    (getMonthGrid core today year month).grid.length =
        (gridFirstDay year month).toNat + (gridDaysInMonth year month).toNat ∧
      ((getMonthGrid core today year month).grid.countP
          (fun c => c.isToday) = 1 ↔
        (today.year = year ∧ today.month = month)) := by
  constructor
  · simp [getMonthGrid]
  · simp only [getMonthGrid, List.countP_append, List.countP_map]
    have hblank : (List.replicate (gridFirstDay year month).toNat
        (⟨none, none, [], false⟩ : GridCell)).countP (fun c => c.isToday)
        = 0 := by
      rw [List.countP_eq_zero]
      intro a ha
      rw [List.eq_of_mem_replicate ha]
      simp
    rw [hblank]
    have hdays := gridDaysInMonth_eq year month h1 h2
    have h28 := monthLength_bounds year month h1 h2
    have hco : ∀ i ∈ List.range (gridDaysInMonth year month).toNat,
        ((fun c => c.isToday) ∘ (fun i : Nat =>
          (⟨some ((i : Int) + 1), some (mkDate year month ((i : Int) + 1) 0),
            getEventsForDate core (mkDate year month ((i : Int) + 1) 0),
            isTodayJS today (mkDate year month ((i : Int) + 1) 0)⟩ :
            GridCell))) i =
          (today.year == year && today.month == month &&
            today.day == (i : Int) + 1) := by
      intro i hi
      have hiN := List.mem_range.mp hi
      have hmk : mkDate year month ((i : Int) + 1) 0 =
          ⟨year, month, (i : Int) + 1, 0⟩ := by
        refine mkDate_valid year month ((i : Int) + 1) 0 h1 h2 (by omega)
          ?_ (by norm_num) (by norm_num)
        rw [← hdays]
        omega
      simp only [Function.comp, hmk, isTodayJS]
    rw [List.countP_congr (fun i hi => by rw [hco i hi])]
    by_cases hym : today.year = year ∧ today.month = month
    · have hcong : ∀ i ∈ List.range (gridDaysInMonth year month).toNat,
          (today.year == year && today.month == month &&
            today.day == (i : Int) + 1) = (today.day == (i : Int) + 1) := by
        intro i _
        simp [hym.1, hym.2]
      rw [List.countP_congr (fun i hi => by rw [hcong i hi]), countRange_eq]
      have hb : 1 ≤ today.day ∧
          today.day ≤ (((gridDaysInMonth year month).toNat : Nat) : Int) := by
        have hcast : (((gridDaysInMonth year month).toNat : Nat) : Int) =
            monthLength year month := by
          rw [Int.toNat_of_nonneg (by omega)]
          exact hdays
        rw [hcast, ← hym.1, ← hym.2]
        exact ⟨ht1, ht2⟩
      rw [if_pos hb]
      simp [hym.1, hym.2]
    · have hzero : (List.range (gridDaysInMonth year month).toNat).countP
          (fun i : Nat => today.year == year && today.month == month &&
            today.day == (i : Int) + 1) = 0 := by
        rw [List.countP_eq_zero]
        intro i _
        simp only [Bool.and_eq_true, beq_iff_eq]
        intro h
        exact hym ⟨h.1.1, h.1.2⟩
      rw [hzero]
      constructor
      · intro h
        exact absurd h (by norm_num)
      · intro h
        exact absurd h hym

/-- Witness for C7 at a concrete store, month and today. -/
theorem c7_monthGrid_witness :
    ((getMonthGrid ⟨[]⟩ ⟨2025, 10, 5, 0⟩ 2025 10).grid.length =
        (gridFirstDay 2025 10).toNat + (gridDaysInMonth 2025 10).toNat) ∧
      ((getMonthGrid ⟨[]⟩ ⟨2025, 10, 5, 0⟩ 2025 10).grid.countP
          (fun c => c.isToday) = 1 ↔
        (((⟨2025, 10, 5, 0⟩ : JSDate).year = 2025) ∧
          ((⟨2025, 10, 5, 0⟩ : JSDate).month = 10))) :=
  c7_monthGrid ⟨[]⟩ ⟨2025, 10, 5, 0⟩ 2025 10 (by norm_num) (by norm_num)
    (by norm_num) (by decide)

/-- A patch object as passed to `EventManager.updateEvent`: an outer `none`
means the field is not named in the patch; for Event fields that are
themselves optional, `some none` names the field with a null value. -/
structure EventPatch where
  title : Option Str := none
  start : Option (Option JSDate) := none
  endTime : Option (Option JSDate) := none
  description : Option Str := none
  location : Option Str := none
  uid : Option Str := none
  categories : Option (List Str) := none
  color : Option (Option Str) := none
  priority : Option (Option Int) := none
  attachments : Option (List Str) := none
  status : Option (Option Str) := none
  isAllDay : Option Bool := none
  organizer : Option (Option Str) := none
  attendees : Option (List Str) := none
  recurrence : Option (Option RecField) := none
  rrule : Option (Option Str) := none
  isRecurring : Option Bool := none
  recurringEventId : Option (Option Str) := none
  recurrenceDate : Option (Option JSDate) := none
deriving DecidableEq

/-- The patch that names no field. -/
def emptyPatch : EventPatch := {}

/-- The merge `{...existing, ...updates, uid: existing.uid}` of
`EventManager.updateEvent` (src/src/event-manager.js lines 57-61): every
field named in the patch wins, except `uid`, which is re-set to the stored
event's uid afterwards. -/
def mergeEvent (old : Event) (p : EventPatch) : Event :=
  { title := p.title.getD old.title
    start := p.start.getD old.start
    endTime := p.endTime.getD old.endTime
    description := p.description.getD old.description
    location := p.location.getD old.location
    uid := old.uid
    categories := p.categories.getD old.categories
    color := p.color.getD old.color
    priority := p.priority.getD old.priority
    attachments := p.attachments.getD old.attachments
    status := p.status.getD old.status
    isAllDay := p.isAllDay.getD old.isAllDay
    organizer := p.organizer.getD old.organizer
    attendees := p.attendees.getD old.attendees
    recurrence := p.recurrence.getD old.recurrence
    rrule := p.rrule.getD old.rrule
    isRecurring := p.isRecurring.getD old.isRecurring
    recurringEventId := p.recurringEventId.getD old.recurringEventId
    recurrenceDate := p.recurrenceDate.getD old.recurrenceDate }

/-- `EventManager.updateEvent` (src/src/event-manager.js lines 44-67): the
outer `none` models the `throw` on a falsy uid; otherwise the first stored
event with the uid is replaced by the merge and returned, or `null`
(`(none, unchanged store)`) when there is no match. -/
def updateEvent (events : List Event) (uid : Str) (patch : EventPatch) :
    Option (Option Event × List Event) :=
  if uid.isEmpty then none
  else
    match events.findIdx? (fun e => e.uid == uid) with
    | none => some (none, events)
    | some i =>
      match events[i]? with
      | some old =>
        some (some (mergeEvent old patch),
          events.set i (mergeEvent old patch))
      | none => some (none, events)

/-- `EventManager.deleteEvent` (src/src/event-manager.js lines 74-83): the
outer `none` models the `throw` on a falsy uid; otherwise every event with
the uid is filtered out and the flag reports whether the store shrank. -/
def deleteEvent (events : List Event) (uid : Str) :
    Option (List Event × Bool) :=
  if uid.isEmpty then none
  else
    some (events.filter (fun e => !(e.uid == uid)),
      decide ((events.filter (fun e => !(e.uid == uid))).length <
        events.length))

/-- `EventManager.deleteEvents` (src/src/event-manager.js lines 90-100):
filter by membership in the uid set, return the removal count. -/
def deleteEvents (events : List Event) (uids : List Str) :
    List Event × Int :=
  (events.filter (fun e => !(uids.contains e.uid)),
    (events.length : Int) -
      ((events.filter (fun e => !(uids.contains e.uid))).length : Int))

/-- C9 (amended): for every stored event with a NONEMPTY uid and every
patch, `update` merges the patch over the first stored event with that uid,
ignores any uid inside the patch (the stored uid is unchanged), keeps every
field not named in the patch, overrides every other named field, replaces
the stored entry and returns the merged event; with no matching uid it
returns the NotFound signal and leaves the store unchanged.  (The original
claim, read over all stored events, fails for the empty uid, on which the
code throws — see the counterexample.) -/
theorem c9_update_merge (events : List Event) (uid : Str)
    (patch : EventPatch) (h : uid ≠ []) :
    ((∀ e ∈ events, e.uid ≠ uid) →
      updateEvent events uid patch = some (none, events)) ∧
    (∀ i old, events.findIdx? (fun e => e.uid == uid) = some i →
      events[i]? = some old →
      updateEvent events uid patch =
        some (some (mergeEvent old patch),
          events.set i (mergeEvent old patch)) ∧
      (mergeEvent old patch).uid = old.uid ∧
      (∀ v, patch.uid = some v → (mergeEvent old patch).uid = old.uid) ∧
      (patch.title = none → (mergeEvent old patch).title = old.title) ∧
      (patch.start = none → (mergeEvent old patch).start = old.start) ∧
      (patch.endTime = none → (mergeEvent old patch).endTime = old.endTime) ∧
      (patch.description = none →
        (mergeEvent old patch).description = old.description) ∧
      (patch.location = none →
        (mergeEvent old patch).location = old.location) ∧
      (patch.categories = none →
        (mergeEvent old patch).categories = old.categories) ∧
      (patch.color = none → (mergeEvent old patch).color = old.color) ∧
      (patch.priority = none →
        (mergeEvent old patch).priority = old.priority) ∧
      (patch.attachments = none →
        (mergeEvent old patch).attachments = old.attachments) ∧
      (patch.status = none → (mergeEvent old patch).status = old.status) ∧
      (patch.isAllDay = none →
        (mergeEvent old patch).isAllDay = old.isAllDay) ∧
      (patch.organizer = none →
        (mergeEvent old patch).organizer = old.organizer) ∧
      (patch.attendees = none →
        (mergeEvent old patch).attendees = old.attendees) ∧
      (patch.recurrence = none →
        (mergeEvent old patch).recurrence = old.recurrence) ∧
      (patch.rrule = none → (mergeEvent old patch).rrule = old.rrule) ∧
      (patch.isRecurring = none →
        (mergeEvent old patch).isRecurring = old.isRecurring) ∧
      (patch.recurringEventId = none →
        (mergeEvent old patch).recurringEventId = old.recurringEventId) ∧
      (patch.recurrenceDate = none →
        (mergeEvent old patch).recurrenceDate = old.recurrenceDate) ∧
      (∀ v, patch.title = some v → (mergeEvent old patch).title = v) ∧
      (∀ v, patch.start = some v → (mergeEvent old patch).start = v) ∧
      (∀ v, patch.endTime = some v → (mergeEvent old patch).endTime = v) ∧
      (∀ v, patch.status = some v → (mergeEvent old patch).status = v)) := by
  have hne : ¬ uid.isEmpty = true := by
    cases uid with
    | nil => exact absurd rfl h
    | cons a l => simp [List.isEmpty]
  constructor
  · intro hmiss
    have hfind : events.findIdx? (fun e => e.uid == uid) = none := by
      rw [List.findIdx?_eq_none_iff]
      intro x hx
      simp [hmiss x hx]
    simp only [updateEvent, hfind]
    rw [if_neg hne]
  · intro i old hfind hget
    refine ⟨?_, rfl, fun v _ => rfl, ?_, ?_, ?_, ?_, ?_, ?_, ?_, ?_, ?_,
      ?_, ?_, ?_, ?_, ?_, ?_, ?_, ?_, ?_, ?_, ?_, ?_, ?_⟩ <;>
      first
        | (simp only [updateEvent, hfind, hget]
           rw [if_neg hne])
        | (intro hv
           simp [mergeEvent, hv])
        | (intro v hv
           simp [mergeEvent, hv])

/-- The store of the C9 witness: two events, the first with uid u. -/
def c9Store : List Event :=
  [{ title := ['a'], uid := ['u'] }, { title := ['b'], uid := ['w'] }]

/-- The patch of the C9 witness: renames the title and tries to change the
uid. -/
def c9Patch : EventPatch := { title := some ['n'], uid := some ['x'] }

/-- Witness for C9: at the concrete store the update replaces the first
event by the merge, whose uid is still u although the patch named x. -/
theorem c9_update_merge_witness :
    updateEvent c9Store ['u'] c9Patch =
        some (some (mergeEvent { title := ['a'], uid := ['u'] } c9Patch),
          c9Store.set 0 (mergeEvent { title := ['a'], uid := ['u'] } c9Patch)) ∧
      (mergeEvent { title := ['a'], uid := ['u'] } c9Patch).uid = ['u'] ∧
      (mergeEvent { title := ['a'], uid := ['u'] } c9Patch).title = ['n'] := by
  have hmain := (c9_update_merge c9Store ['u'] c9Patch (by decide)).2 0
    { title := ['a'], uid := ['u'] } (by decide) (by decide)
  exact ⟨hmain.1, hmain.2.1, (hmain.2.2.2.2.2.2.2.2.2.2.2.2.2.2.2.2.2.2.2.2.2).1
    ['n'] rfl⟩

/-- An event stored with an empty uid (reachable through the store's raw
insert, which validates nothing). -/
def c9EmptyUidStore : List Event := [{ title := ['a'], uid := [] }]

/-- C9 counterexample: with a stored event whose uid is the empty string,
`update` on that uid throws (modelled `none`) instead of merging and
returning the updated event as the claim requires. -/
theorem c9_empty_uid_cex :
    (∃ e ∈ c9EmptyUidStore, e.uid = []) ∧
      updateEvent c9EmptyUidStore [] emptyPatch = none := by
  constructor
  · exact ⟨_, List.mem_singleton.mpr rfl, rfl⟩
  · rfl

theorem countP_bnot_add {α : Type} (p : α → Bool) :
    ∀ l : List α, l.countP (fun a => !(p a)) + l.countP p = l.length := by
  intro l
  induction l with
  | nil => rfl
  | cons a l ih =>
    simp only [List.countP_cons]
    cases hp : p a <;> simp [hp] <;> omega

/-- C10 (amended): for a NONEMPTY uid, `delete` removes every stored event
whose uid matches (not only the first), returns true exactly when at least
one matched, and keeps the remaining events in their relative order
(sublist of the original); `deleteMany` removes every event whose uid is in
the set and returns the total number removed (the match count, which can
exceed the number of uids supplied when duplicates exist).  (The original
claim, read over all uids, fails for the empty uid, on which `delete`
throws — see the counterexample.) -/
theorem c10_delete_all_matches (events : List Event) (uid : Str)
    (uids : List Str) (h : uid ≠ []) :
    (deleteEvent events uid =
        some (events.filter (fun e => !(e.uid == uid)),
          decide ((events.filter (fun e => !(e.uid == uid))).length <
            events.length)) ∧
      (∀ x ∈ events.filter (fun e => !(e.uid == uid)), x.uid ≠ uid) ∧
      (events.filter (fun e => !(e.uid == uid))).Sublist events ∧
      ((events.filter (fun e => !(e.uid == uid))).length < events.length ↔
        ∃ e ∈ events, e.uid = uid)) ∧
    (deleteEvents events uids =
        (events.filter (fun e => !(uids.contains e.uid)),
          (events.countP (fun e => uids.contains e.uid) : Int)) ∧
      (∀ x ∈ events.filter (fun e => !(uids.contains e.uid)),
        ¬ x.uid ∈ uids) ∧
      (events.filter (fun e => !(uids.contains e.uid))).Sublist events) := by
  have hne : ¬ uid.isEmpty = true := by
    cases uid with
    | nil => exact absurd rfl h
    | cons a l => simp [List.isEmpty]
  refine ⟨⟨?_, ?_, List.filter_sublist _, ?_⟩, ⟨?_, ?_, List.filter_sublist _⟩⟩
  · simp only [deleteEvent]
    rw [if_neg hne]
  · intro x hx
    have := (List.mem_filter.mp hx).2
    simp only [Bool.not_eq_eq_eq_not, Bool.not_true, beq_eq_false_iff_ne,
      ne_eq] at this
    exact this
  · have hadd := countP_bnot_add (fun e => e.uid == uid) events
    rw [← List.countP_eq_length_filter]
    constructor
    · intro hlt
      have hpos : 0 < events.countP (fun e => e.uid == uid) := by omega
      obtain ⟨e, he, hp⟩ := List.countP_pos_iff.mp hpos
      exact ⟨e, he, by simpa using hp⟩
    · rintro ⟨e, he, hp⟩
      have hpos : 0 < events.countP (fun e => e.uid == uid) :=
        List.countP_pos_iff.mpr ⟨e, he, by simpa using hp⟩
      omega
  · simp only [deleteEvents]
    have hadd := countP_bnot_add (fun e => uids.contains e.uid) events
    have hlen := List.countP_eq_length_filter
      (fun e => !(uids.contains e.uid)) events
    rw [Prod.mk.injEq]
    refine ⟨rfl, ?_⟩
    omega
  · intro x hx
    have := (List.mem_filter.mp hx).2
    simp only [Bool.not_eq_eq_eq_not, Bool.not_true] at this
    intro hmem
    simp [hmem] at this

/-- Event with uid u, first duplicate, of the C10 witness store. -/
def c10EventU1 : Event := { title := ['a'], uid := ['u'] }

/-- Event with uid u, second duplicate, of the C10 witness store. -/
def c10EventU2 : Event := { title := ['b'], uid := ['u'] }

/-- Event with uid v of the C10 witness store. -/
def c10EventV : Event := { title := ['c'], uid := ['v'] }

/-- The C10 witness store: two duplicates of uid u around an unrelated
event. -/
def c10Store : List Event := [c10EventU1, c10EventU2, c10EventV]

/-- Witness for C10: deleting u removes both duplicates and returns true;
deleteMany with the single uid u removes 2 events — more than the one uid
supplied. -/
theorem c10_delete_all_matches_witness :
    deleteEvent c10Store ['u'] = some ([c10EventV], true) ∧
      deleteEvents c10Store [['u']] = ([c10EventV], 2) := by
  have h := c10_delete_all_matches c10Store ['u'] [['u']] (by decide)
  constructor
  · rw [h.1.1]
    decide
  · rw [h.2.1]
    decide

/-- A store holding two events with the empty uid. -/
def c10EmptyStore : List Event :=
  [{ title := ['a'], uid := [] }, { title := ['b'], uid := [] }]

/-- C10 counterexample: duplicates of the empty uid exist in the store, yet
`delete` of that uid throws (modelled `none`) instead of removing them and
returning true as the claim requires. -/
theorem c10_empty_uid_cex :
    c10EmptyStore.countP (fun e => e.uid == []) = 2 ∧
      deleteEvent c10EmptyStore [] = none := by
  decide

theorem splitChar_ne_nil (c : Char) : ∀ s : Str, splitChar c s ≠ [] := by
  intro s
  induction s with
  | nil => simp [splitChar]
  | cons a rest ih =>
    simp only [splitChar]
    by_cases h : a = c
    · rw [if_pos h]
      simp
    · rw [if_neg h]
      cases hs : splitChar c rest with
      | nil => exact absurd hs ih
      | cons b t => simp

theorem splitChar_no_sep (c : Char) : ∀ s : Str, c ∉ s →
    splitChar c s = [s] := by
  intro s
  induction s with
  | nil => intro _; rfl
  | cons a rest ih =>
    intro h
    simp only [List.mem_cons, not_or] at h
    simp only [splitChar]
    rw [if_neg (fun hc => h.1 hc.symm)]
    rw [ih h.2]

theorem splitChar_append_cons (c : Char) : ∀ (xs ys : Str), c ∉ xs →
    splitChar c (xs ++ c :: ys) = xs :: splitChar c ys := by
  intro xs
  induction xs with
  | nil =>
    intro ys _
    simp [splitChar]
  | cons a rest ih =>
    intro ys h
    simp only [List.mem_cons, not_or] at h
    simp only [List.cons_append, splitChar]
    rw [if_neg (fun hc => h.1 hc.symm)]
    simp only [List.append_eq]
    rw [ih ys h.2]

theorem splitChar_intercalate (c : Char) : ∀ parts : List Str,
    parts ≠ [] → (∀ p ∈ parts, c ∉ p) →
    splitChar c (intercalateChar c parts) = parts := by
  intro parts
  induction parts with
  | nil => intro h _; exact absurd rfl h
  | cons p rest ih =>
    intro _ hmem
    cases rest with
    | nil =>
      simp only [intercalateChar]
      exact splitChar_no_sep c p (hmem p (by simp))
    | cons q t =>
      simp only [intercalateChar]
      rw [splitChar_append_cons c p (intercalateChar c (q :: t))
        (hmem p (by simp))]
      rw [ih (by simp) (fun x hx => hmem x (by simp [hx]))]

theorem digitChar10_isDigit (n : Nat) (h : n < 10) :
    (digitChar10 n).isDigit = true := by
  interval_cases n <;> decide

theorem digitChar10_toNat (n : Nat) (h : n < 10) :
    (digitChar10 n).toNat - 48 = n := by
  interval_cases n <;> decide

theorem natToStrGo_spec : ∀ (fuel n : Nat) (acc : Str), 0 < fuel →
    n < 10 ^ fuel →
    ∃ s : Str, natToStrGo fuel n acc = s ++ acc ∧ s ≠ [] ∧
      (∀ ch ∈ s, ch.isDigit = true) ∧
      (∀ a : Nat, s.foldl (fun b c => b * 10 + (c.toNat - 48)) a =
        a * 10 ^ s.length + n) ∧
      n < 10 ^ s.length ∧ (10 ^ (s.length - 1) ≤ n ∨ s.length = 1) := by
  intro fuel
  induction fuel with
  | zero => intro n acc h _; exact absurd h (by omega)
  | succ f ih =>
    intro n acc _ hn
    by_cases h10 : n < 10
    · refine ⟨[digitChar10 n], ?_, by simp, ?_, ?_, ?_, Or.inr rfl⟩
      · simp only [natToStrGo]
        rw [if_pos h10]
        rfl
      · intro ch hch
        rw [List.mem_singleton.mp hch]
        exact digitChar10_isDigit n h10
      · intro a
        simp only [List.foldl_cons, List.foldl_nil, List.length_singleton,
          pow_one]
        rw [digitChar10_toNat n h10]
      · simpa using h10
    · have hf : 0 < f := by
        by_contra hc
        have : f = 0 := by omega
        subst this
        simp at hn
        omega
      have hdiv : n / 10 < 10 ^ f := by
        have : (10 : Nat) ^ (f + 1) = 10 ^ f * 10 := by ring
        rw [this] at hn
        omega
      obtain ⟨s', he, hne, hdig, hfold, hlt, hge⟩ :=
        ih (n / 10) (digitChar10 (n % 10) :: acc) hf hdiv
      have hlen1 : 1 ≤ s'.length := List.length_pos.mpr hne
      refine ⟨s' ++ [digitChar10 (n % 10)], ?_, by simp, ?_, ?_, ?_, ?_⟩
      · simp only [natToStrGo]
        rw [if_neg h10, he]
        simp
      · intro ch hch
        rcases List.mem_append.mp hch with h | h
        · exact hdig ch h
        · rw [List.mem_singleton.mp h]
          exact digitChar10_isDigit (n % 10) (by omega)
      · intro a
        rw [List.foldl_append]
        simp only [List.foldl_cons, List.foldl_nil, List.length_append,
          List.length_singleton]
        rw [hfold a, digitChar10_toNat (n % 10) (by omega)]
        have hp : (10 : Nat) ^ (s'.length + 1) = 10 ^ s'.length * 10 := by
          ring
        rw [hp]
        have := Nat.div_add_mod n 10
        nlinarith [this]
      · simp only [List.length_append, List.length_singleton]
        have hp : (10 : Nat) ^ (s'.length + 1) = 10 ^ s'.length * 10 := by
          ring
        rw [hp]
        omega
      · left
        simp only [List.length_append, List.length_singleton]
        have he1 : s'.length + 1 - 1 = (s'.length - 1) + 1 := by omega
        rw [he1]
        have hp : (10 : Nat) ^ ((s'.length - 1) + 1) =
            10 ^ (s'.length - 1) * 10 := by ring
        rw [hp]
        rcases hge with hge | hge
        · have h2 : 10 ^ (s'.length - 1) * 10 ≤ n / 10 * 10 :=
            Nat.mul_le_mul_right 10 hge
          have := Nat.div_add_mod n 10
          omega
        · rw [hge]
          norm_num
          omega

theorem natToStr_spec (n : Nat) :
    natToStr n ≠ [] ∧ (∀ ch ∈ natToStr n, ch.isDigit = true) ∧
      foldDigits (natToStr n) = n ∧ n < 10 ^ (natToStr n).length ∧
      (10 ^ ((natToStr n).length - 1) ≤ n ∨ (natToStr n).length = 1) := by
  have hbound : n < 10 ^ (n + 1) := by
    calc n < 2 ^ n := Nat.lt_two_pow n
    _ ≤ 10 ^ n := Nat.pow_le_pow_left (by norm_num) n
    _ ≤ 10 ^ (n + 1) := Nat.pow_le_pow_right (by norm_num) (by omega)
  obtain ⟨s, he, hne, hdig, hfold, hlt, hge⟩ :=
    natToStrGo_spec (n + 1) n [] (by omega) hbound
  rw [List.append_nil] at he
  have hns : natToStr n = s := he
  rw [hns]
  refine ⟨hne, hdig, ?_, hlt, hge⟩
  have := hfold 0
  simpa [foldDigits] using this

theorem takeWhile_all {p : Char → Bool} : ∀ s : Str,
    (∀ x ∈ s, p x = true) → s.takeWhile p = s := by
  intro s
  induction s with
  | nil => intro _; rfl
  | cons a rest ih =>
    intro h
    simp only [List.takeWhile_cons]
    rw [h a (by simp)]
    simp [ih (fun x hx => h x (by simp [hx]))]

theorem isDigit_ne_minus (c : Char) (h : c.isDigit = true) : c ≠ '-' := by
  intro hc
  rw [hc] at h
  exact absurd h (by decide)

theorem isDigit_ne_plus (c : Char) (h : c.isDigit = true) : c ≠ '+' := by
  intro hc
  rw [hc] at h
  exact absurd h (by decide)

theorem isDigit_ne_semi (c : Char) (h : c.isDigit = true) : c ≠ ';' := by
  intro hc
  rw [hc] at h
  exact absurd h (by decide)

theorem isDigit_ne_eq (c : Char) (h : c.isDigit = true) : c ≠ '=' := by
  intro hc
  rw [hc] at h
  exact absurd h (by decide)

theorem isDigit_ne_comma (c : Char) (h : c.isDigit = true) : c ≠ ',' := by
  intro hc
  rw [hc] at h
  exact absurd h (by decide)

theorem parseIntJS_all_digits (s : Str) (hne : s ≠ [])
    (hdig : ∀ ch ∈ s, ch.isDigit = true) :
    parseIntJS s = some ((foldDigits s : Nat) : Int) := by
  cases s with
  | nil => exact absurd rfl hne
  | cons c rest =>
    have hc : c.isDigit = true := hdig c (by simp)
    simp only [parseIntJS]
    rw [if_neg (isDigit_ne_minus c hc), if_neg (isDigit_ne_plus c hc)]
    rw [takeWhile_all (c :: rest) hdig]
    rw [if_neg (by simp [List.isEmpty])]

theorem parseIntJS_natToStr (n : Nat) :
    parseIntJS (natToStr n) = some (n : Int) := by
  obtain ⟨hne, hdig, hfold, _, _⟩ := natToStr_spec n
  rw [parseIntJS_all_digits (natToStr n) hne hdig, hfold]

theorem foldDigits_zeros : ∀ (k : Nat) (s : Str),
    foldDigits (List.replicate k '0' ++ s) = foldDigits s := by
  intro k
  induction k with
  | zero => intro s; rfl
  | succ k ih =>
    intro s
    simp only [List.replicate_succ, List.cons_append, foldDigits,
      List.foldl_cons]
    have : (0 : Nat) * 10 + ('0'.toNat - 48) = 0 := by decide
    rw [this]
    exact ih s

theorem padStart2_parseIntJS (n : Nat) :
    parseIntJS (padStart2 (natToStr n)) = some (n : Int) := by
  obtain ⟨hne, hdig, hfold, _, _⟩ := natToStr_spec n
  simp only [padStart2]
  by_cases hl : (natToStr n).length < 2
  · rw [if_pos hl]
    have hdig2 : ∀ ch ∈ List.replicate (2 - (natToStr n).length) '0' ++
        natToStr n, ch.isDigit = true := by
      intro ch hch
      rcases List.mem_append.mp hch with h | h
      · rw [List.eq_of_mem_replicate h]
        decide
      · exact hdig ch h
    rw [parseIntJS_all_digits _ (by simp [hne]) hdig2, foldDigits_zeros,
      hfold]
  · rw [if_neg hl]
    exact parseIntJS_natToStr n

theorem natToStr_len_pos (n : Nat) : 1 ≤ (natToStr n).length :=
  List.length_pos.mpr (natToStr_spec n).1

theorem natToStr_len_le_two (n : Nat) (h : n ≤ 99) :
    (natToStr n).length ≤ 2 := by
  obtain ⟨_, _, _, _, hge⟩ := natToStr_spec n
  rcases hge with hge | hge
  · by_contra hc
    have h3 : 2 ≤ (natToStr n).length - 1 := by omega
    have : 10 ^ 2 ≤ 10 ^ ((natToStr n).length - 1) :=
      Nat.pow_le_pow_right (by norm_num) h3
    omega
  · omega

theorem natToStr_len_four (n : Nat) (h1 : 1000 ≤ n) (h2 : n ≤ 9999) :
    (natToStr n).length = 4 := by
  obtain ⟨_, _, _, hlt, hge⟩ := natToStr_spec n
  rcases hge with hge | hge
  · have hle4 : (natToStr n).length - 1 ≤ 3 := by
      by_contra hc
      have h4 : 4 ≤ (natToStr n).length - 1 := by omega
      have : 10 ^ 4 ≤ 10 ^ ((natToStr n).length - 1) :=
        Nat.pow_le_pow_right (by norm_num) h4
      omega
    have hge4 : 4 ≤ (natToStr n).length := by
      by_contra hc
      have h3 : (natToStr n).length ≤ 3 := by omega
      have : 10 ^ (natToStr n).length ≤ 10 ^ 3 :=
        Nat.pow_le_pow_right (by norm_num) h3
      omega
    omega
  · rw [hge] at hlt
    omega

theorem padStart2_len_two (s : Str) (h1 : s ≠ []) (h2 : s.length ≤ 2) :
    (padStart2 s).length = 2 := by
  simp only [padStart2]
  by_cases hl : s.length < 2
  · rw [if_pos hl]
    simp only [List.length_append, List.length_replicate]
    omega
  · rw [if_neg hl]
    omega

theorem intToStr_nonneg (i : Int) (h : 0 ≤ i) : intToStr i = natToStr i.toNat := by
  simp only [intToStr]
  rw [if_neg (by omega)]

theorem natToStr_digits (n : Nat) : ∀ ch ∈ natToStr n, ch.isDigit = true :=
  (natToStr_spec n).2.1

theorem pad2_digits (n : Nat) :
    ∀ ch ∈ padStart2 (natToStr n), ch.isDigit = true := by
  intro ch hch
  simp only [padStart2] at hch
  by_cases hl : (natToStr n).length < 2
  · rw [if_pos hl] at hch
    rcases List.mem_append.mp hch with h | h
    · rw [List.eq_of_mem_replicate h]
      decide
    · exact natToStr_digits n ch h
  · rw [if_neg hl] at hch
    exact natToStr_digits n ch hch

theorem take_len_append (a b : Str) (n : Nat) (h : a.length = n) :
    (a ++ b).take n = a := by
  subst h
  exact List.take_left a b

theorem drop_len_append (a b : Str) (n : Nat) (h : a.length = n) :
    (a ++ b).drop n = b := by
  subst h
  exact List.drop_left a b

/-- The argument domain on which `formatRRuleDate` is inverted by
`parseRRuleDate`: the normalized dates with four-digit years.  Every `Date`
produced by the engine's own date normalization in this range satisfies
it. -/
def DateWF (dt : JSDate) : Prop :=
  1000 ≤ dt.year ∧ dt.year ≤ 9999 ∧ 0 ≤ dt.month ∧ dt.month ≤ 11 ∧
    1 ≤ dt.day ∧ dt.day ≤ monthLength dt.year dt.month ∧
    0 ≤ dt.msOfDay ∧ dt.msOfDay < 86400000

instance (dt : JSDate) : Decidable (DateWF dt) := by
  unfold DateWF
  infer_instance

/-- A date with its time of day truncated to whole seconds: what survives
the second-granular `formatRRuleDate` text. -/
def truncSec (dt : JSDate) : JSDate :=
  ⟨dt.year, dt.month, dt.day, dt.msOfDay / 1000 * 1000⟩

theorem formatRRuleDate_truncSec (dt : JSDate) :
    formatRRuleDate (truncSec dt) = formatRRuleDate dt := by
  simp only [formatRRuleDate, truncSec]
  rw [show dt.msOfDay / 1000 * 1000 / 3600000 = dt.msOfDay / 3600000 from by
        omega,
      show dt.msOfDay / 1000 * 1000 / 60000 % 60 = dt.msOfDay / 60000 % 60 from
        by omega,
      show dt.msOfDay / 1000 * 1000 / 1000 % 60 = dt.msOfDay / 1000 % 60 from
        by omega]

theorem formatRRuleDate_chars (dt : JSDate) (hy : 0 ≤ dt.year) :
    ∀ c ∈ formatRRuleDate dt, c.isDigit = true ∨ c = 'T' ∨ c = 'Z' := by
  intro c hc
  simp only [formatRRuleDate, intToStr_nonneg dt.year hy, List.mem_append,
    List.mem_cons, List.mem_singleton, List.not_mem_nil, or_false] at hc
  rcases hc with ((h | h) | h) | h | ((h | h) | h) | h
  · exact Or.inl (natToStr_digits _ c h)
  · exact Or.inl (pad2_digits _ c h)
  · exact Or.inl (pad2_digits _ c h)
  · exact Or.inr (Or.inl h)
  · exact Or.inl (pad2_digits _ c h)
  · exact Or.inl (pad2_digits _ c h)
  · exact Or.inl (pad2_digits _ c h)
  · exact Or.inr (Or.inr h)

theorem parseRRuleDate_format (dt : JSDate) (h : DateWF dt) :
    parseRRuleDate (formatRRuleDate dt) = some (truncSec dt) := by
  obtain ⟨h1, h2, h3, h4, h5, h6, h7, h8⟩ := h
  have hY : intToStr dt.year = natToStr dt.year.toNat :=
    intToStr_nonneg dt.year (by omega)
  have hYlen : (natToStr dt.year.toNat).length = 4 :=
    natToStr_len_four _ (by omega) (by omega)
  have hMlen : (padStart2 (natToStr (dt.month + 1).toNat)).length = 2 :=
    padStart2_len_two _ (natToStr_spec _).1 (natToStr_len_le_two _ (by omega))
  have hDlen : (padStart2 (natToStr dt.day.toNat)).length = 2 := by
    refine padStart2_len_two _ (natToStr_spec _).1 (natToStr_len_le_two _ ?_)
    have := monthLength_bounds dt.year dt.month
    omega
  have hHlen : (padStart2 (natToStr (dt.msOfDay / 3600000).toNat)).length = 2 :=
    padStart2_len_two _ (natToStr_spec _).1 (natToStr_len_le_two _ (by omega))
  have hMilen :
      (padStart2 (natToStr (dt.msOfDay / 60000 % 60).toNat)).length = 2 :=
    padStart2_len_two _ (natToStr_spec _).1 (natToStr_len_le_two _ (by omega))
  have hSlen :
      (padStart2 (natToStr (dt.msOfDay / 1000 % 60).toNat)).length = 2 :=
    padStart2_len_two _ (natToStr_spec _).1 (natToStr_len_le_two _ (by omega))
  have hshape : formatRRuleDate dt =
      natToStr dt.year.toNat ++ (padStart2 (natToStr (dt.month + 1).toNat) ++
        (padStart2 (natToStr dt.day.toNat) ++ ('T' ::
        (padStart2 (natToStr (dt.msOfDay / 3600000).toNat) ++
         (padStart2 (natToStr (dt.msOfDay / 60000 % 60).toNat) ++
          (padStart2 (natToStr (dt.msOfDay / 1000 % 60).toNat) ++
           ['Z'])))))) := by
    simp only [formatRRuleDate, hY, List.append_assoc, List.cons_append]
  have hlen : (formatRRuleDate dt).length = 16 := by
    rw [hshape]
    simp only [List.length_append, List.length_cons, hYlen, hMlen, hDlen,
      hHlen, hMilen, hSlen, List.length_singleton, List.length_nil]
  have hd4 : (formatRRuleDate dt).drop 4 =
      padStart2 (natToStr (dt.month + 1).toNat) ++
        (padStart2 (natToStr dt.day.toNat) ++ ('T' ::
        (padStart2 (natToStr (dt.msOfDay / 3600000).toNat) ++
         (padStart2 (natToStr (dt.msOfDay / 60000 % 60).toNat) ++
          (padStart2 (natToStr (dt.msOfDay / 1000 % 60).toNat) ++
           ['Z']))))) := by
    rw [hshape]
    exact drop_len_append _ _ 4 hYlen
  have hd6 : (formatRRuleDate dt).drop 6 =
      padStart2 (natToStr dt.day.toNat) ++ ('T' ::
        (padStart2 (natToStr (dt.msOfDay / 3600000).toNat) ++
         (padStart2 (natToStr (dt.msOfDay / 60000 % 60).toNat) ++
          (padStart2 (natToStr (dt.msOfDay / 1000 % 60).toNat) ++
           ['Z'])))) := by
    rw [show (6 : Nat) = 4 + 2 from rfl, ← List.drop_drop, hd4]
    exact drop_len_append _ _ 2 hMlen
  have hd8 : (formatRRuleDate dt).drop 8 = 'T' ::
      (padStart2 (natToStr (dt.msOfDay / 3600000).toNat) ++
       (padStart2 (natToStr (dt.msOfDay / 60000 % 60).toNat) ++
        (padStart2 (natToStr (dt.msOfDay / 1000 % 60).toNat) ++ ['Z']))) := by
    rw [show (8 : Nat) = 6 + 2 from rfl, ← List.drop_drop, hd6]
    exact drop_len_append _ _ 2 hDlen
  have hd9 : (formatRRuleDate dt).drop 9 =
      padStart2 (natToStr (dt.msOfDay / 3600000).toNat) ++
       (padStart2 (natToStr (dt.msOfDay / 60000 % 60).toNat) ++
        (padStart2 (natToStr (dt.msOfDay / 1000 % 60).toNat) ++ ['Z'])) := by
    rw [show (9 : Nat) = 8 + 1 from rfl, ← List.drop_drop, hd8]
    rfl
  have hd11 : (formatRRuleDate dt).drop 11 =
      padStart2 (natToStr (dt.msOfDay / 60000 % 60).toNat) ++
        (padStart2 (natToStr (dt.msOfDay / 1000 % 60).toNat) ++ ['Z']) := by
    rw [show (11 : Nat) = 9 + 2 from rfl, ← List.drop_drop, hd9]
    exact drop_len_append _ _ 2 hHlen
  have hd13 : (formatRRuleDate dt).drop 13 =
      padStart2 (natToStr (dt.msOfDay / 1000 % 60).toNat) ++ ['Z'] := by
    rw [show (13 : Nat) = 11 + 2 from rfl, ← List.drop_drop, hd11]
    exact drop_len_append _ _ 2 hMilen
  have e1 : parseIntJS (substrJS 0 4 (formatRRuleDate dt)) = some dt.year := by
    simp only [substrJS, List.drop_zero]
    rw [show (4 - 0 : Nat) = 4 from rfl, hshape, take_len_append _ _ 4 hYlen,
      parseIntJS_natToStr, Int.toNat_of_nonneg (by omega)]
  have e2 : parseIntJS (substrJS 4 6 (formatRRuleDate dt)) =
      some (dt.month + 1) := by
    simp only [substrJS]
    rw [show (6 - 4 : Nat) = 2 from rfl, hd4, take_len_append _ _ 2 hMlen,
      padStart2_parseIntJS, Int.toNat_of_nonneg (by omega)]
  have e3 : parseIntJS (substrJS 6 8 (formatRRuleDate dt)) = some dt.day := by
    simp only [substrJS]
    rw [show (8 - 6 : Nat) = 2 from rfl, hd6, take_len_append _ _ 2 hDlen,
      padStart2_parseIntJS, Int.toNat_of_nonneg (by omega)]
  have e4 : parseIntJS (substrJS 9 11 (formatRRuleDate dt)) =
      some (dt.msOfDay / 3600000) := by
    simp only [substrJS]
    rw [show (11 - 9 : Nat) = 2 from rfl, hd9, take_len_append _ _ 2 hHlen,
      padStart2_parseIntJS, Int.toNat_of_nonneg (by omega)]
  have e5 : parseIntJS (substrJS 11 13 (formatRRuleDate dt)) =
      some (dt.msOfDay / 60000 % 60) := by
    simp only [substrJS]
    rw [show (13 - 11 : Nat) = 2 from rfl, hd11, take_len_append _ _ 2 hMilen,
      padStart2_parseIntJS, Int.toNat_of_nonneg (by omega)]
  have e6 : parseIntJS (substrJS 13 15 (formatRRuleDate dt)) =
      some (dt.msOfDay / 1000 % 60) := by
    simp only [substrJS]
    rw [show (15 - 13 : Nat) = 2 from rfl, hd13, take_len_append _ _ 2 hSlen,
      padStart2_parseIntJS, Int.toNat_of_nonneg (by omega)]
  have hT : (formatRRuleDate dt).contains 'T' = true := by
    have hmem : 'T' ∈ formatRRuleDate dt := by
      rw [hshape]
      simp
    simp [List.contains, List.elem_iff, hmem]
  simp only [parseRRuleDate]
  rw [if_neg (by rw [hlen]; omega), if_pos hT, e1, e2, e3, e4, e5, e6]
  show some (mkDate dt.year (dt.month + 1 - 1) dt.day
      (dt.msOfDay / 3600000 * 3600000 + dt.msOfDay / 60000 % 60 * 60000 +
        dt.msOfDay / 1000 % 60 * 1000)) = some (truncSec dt)
  have em : dt.month + 1 - 1 = dt.month := by omega
  rw [em]
  rw [mkDate_valid dt.year dt.month dt.day
    (dt.msOfDay / 3600000 * 3600000 + dt.msOfDay / 60000 % 60 * 60000 +
      dt.msOfDay / 1000 % 60 * 1000) h3 h4 h5 h6 (by omega) (by omega)]
  simp only [truncSec, Option.some.injEq, JSDate.mk.injEq, true_and]
  omega

theorem mem_intercalateChar (c : Char) : ∀ (parts : List Str) (x : Char),
    x ∈ intercalateChar c parts → x = c ∨ ∃ p ∈ parts, x ∈ p := by
  intro parts
  induction parts with
  | nil =>
    intro x hx
    simp [intercalateChar] at hx
  | cons p rest ih =>
    intro x hx
    cases rest with
    | nil =>
      exact Or.inr ⟨p, by simp, hx⟩
    | cons q rest2 =>
      simp only [intercalateChar, List.mem_append, List.mem_cons] at hx
      rcases hx with h | h | h
      · exact Or.inr ⟨p, by simp, h⟩
      · exact Or.inl h
      · rcases ih x h with h2 | ⟨p2, hp2, hxp2⟩
        · exact Or.inl h2
        · exact Or.inr ⟨p2, by simp [hp2], hxp2⟩

theorem intercalateChar_ne_nil (c : Char) (parts : List Str)
    (h1 : parts ≠ []) (h2 : ∀ p ∈ parts, p ≠ []) :
    intercalateChar c parts ≠ [] := by
  cases parts with
  | nil => exact absurd rfl h1
  | cons p rest =>
    cases rest with
    | nil => exact h2 p (by simp)
    | cons q rest2 =>
      simp only [intercalateChar]
      intro hc
      exact h2 p (by simp) (List.append_eq_nil.mp hc).1

theorem applyPartFREQ (r : RRuleObj) (v : Str) (hv : v ≠ []) (hne : '=' ∉ v) :
    applyRulePart r (kwFREQ ++ '=' :: v) =
      { r with freq := some (toUpperStr v) } := by
  simp only [applyRulePart, splitChar_append_cons '=' kwFREQ v (by decide),
    splitChar_no_sep '=' v hne]
  rw [if_neg (by simp [List.isEmpty_eq_false, hv]; decide)]
  rw [if_pos (by decide)]

theorem applyPartCOUNT (r : RRuleObj) (v : Str) (hv : v ≠ []) (hne : '=' ∉ v) :
    applyRulePart r (kwCOUNT ++ '=' :: v) =
      { r with count := some (parseIntJS v) } := by
  simp only [applyRulePart, splitChar_append_cons '=' kwCOUNT v (by decide),
    splitChar_no_sep '=' v hne]
  rw [if_neg (by simp [List.isEmpty_eq_false, hv]; decide)]
  rw [if_neg (by decide), if_pos (by decide)]

theorem applyPartUNTIL (r : RRuleObj) (v : Str) (hv : v ≠ []) (hne : '=' ∉ v) :
    applyRulePart r (kwUNTIL ++ '=' :: v) =
      { r with untilDate := parseRRuleDate v } := by
  simp only [applyRulePart, splitChar_append_cons '=' kwUNTIL v (by decide),
    splitChar_no_sep '=' v hne]
  rw [if_neg (by simp [List.isEmpty_eq_false, hv]; decide)]
  rw [if_neg (by decide), if_neg (by decide), if_pos (by decide)]

theorem applyPartINTERVAL (r : RRuleObj) (v : Str) (hv : v ≠ [])
    (hne : '=' ∉ v) :
    applyRulePart r (kwINTERVAL ++ '=' :: v) =
      { r with interval := some (parseIntJS v) } := by
  simp only [applyRulePart, splitChar_append_cons '=' kwINTERVAL v (by decide),
    splitChar_no_sep '=' v hne]
  rw [if_neg (by simp [List.isEmpty_eq_false, hv]; decide)]
  rw [if_neg (by decide), if_neg (by decide), if_neg (by decide),
    if_pos (by decide)]

theorem applyPartBYDAY (r : RRuleObj) (v : Str) (hv : v ≠ []) (hne : '=' ∉ v) :
    applyRulePart r (kwBYDAY ++ '=' :: v) =
      { r with byDay := some (splitChar ',' v) } := by
  simp only [applyRulePart, splitChar_append_cons '=' kwBYDAY v (by decide),
    splitChar_no_sep '=' v hne]
  rw [if_neg (by simp [List.isEmpty_eq_false, hv]; decide)]
  rw [if_neg (by decide), if_neg (by decide), if_neg (by decide),
    if_neg (by decide), if_pos (by decide)]

theorem applyPartBYMONTHDAY (r : RRuleObj) (v : Str) (hv : v ≠ [])
    (hne : '=' ∉ v) :
    applyRulePart r (kwBYMONTHDAY ++ '=' :: v) =
      { r with byMonthDay := some ((splitChar ',' v).map parseIntJS) } := by
  simp only [applyRulePart,
    splitChar_append_cons '=' kwBYMONTHDAY v (by decide),
    splitChar_no_sep '=' v hne]
  rw [if_neg (by simp [List.isEmpty_eq_false, hv]; decide)]
  rw [if_neg (by decide), if_neg (by decide), if_neg (by decide),
    if_neg (by decide), if_neg (by decide), if_pos (by decide)]

theorem applyPartBYMONTH (r : RRuleObj) (v : Str) (hv : v ≠ [])
    (hne : '=' ∉ v) :
    applyRulePart r (kwBYMONTH ++ '=' :: v) =
      { r with byMonth := some ((splitChar ',' v).map parseIntJS) } := by
  simp only [applyRulePart, splitChar_append_cons '=' kwBYMONTH v (by decide),
    splitChar_no_sep '=' v hne]
  rw [if_neg (by simp [List.isEmpty_eq_false, hv]; decide)]
  rw [if_neg (by decide), if_neg (by decide), if_neg (by decide),
    if_neg (by decide), if_neg (by decide), if_neg (by decide),
    if_pos (by decide)]

theorem applyPartWKST (r : RRuleObj) (v : Str) (hv : v ≠ []) (hne : '=' ∉ v) :
    applyRulePart r (kwWKST ++ '=' :: v) =
      { r with wkst := some (toUpperStr v) } := by
  simp only [applyRulePart, splitChar_append_cons '=' kwWKST v (by decide),
    splitChar_no_sep '=' v hne]
  rw [if_neg (by simp [List.isEmpty_eq_false, hv]; decide)]
  rw [if_neg (by decide), if_neg (by decide), if_neg (by decide),
    if_neg (by decide), if_neg (by decide), if_neg (by decide),
    if_neg (by decide), if_pos (by decide)]

/-- The FREQ entry of the `parts` array of `formatRRule`. -/
def fpFreq (rule : RRuleObj) : List Str :=
  match rule.freq with
  | some f => if f.isEmpty then [] else [kwFREQ ++ '=' :: toUpperStr f]
  | none => []

/-- The COUNT entry of the `parts` array of `formatRRule`. -/
def fpCount (rule : RRuleObj) : List Str :=
  match rule.count with
  | some (some n) => if n = 0 then [] else [kwCOUNT ++ '=' :: jsNumToStr (some n)]
  | _ => []

/-- The UNTIL entry of the `parts` array of `formatRRule`. -/
def fpUntil (rule : RRuleObj) : List Str :=
  match rule.untilDate with
  | some u => [kwUNTIL ++ '=' :: formatRRuleDate u]
  | none => []

/-- The INTERVAL entry of the `parts` array of `formatRRule`. -/
def fpInterval (rule : RRuleObj) : List Str :=
  match rule.interval with
  | some (some n) =>
    if 1 < n then [kwINTERVAL ++ '=' :: jsNumToStr (some n)] else []
  | _ => []

/-- The BYDAY entry of the `parts` array of `formatRRule`. -/
def fpByDay (rule : RRuleObj) : List Str :=
  match rule.byDay with
  | some l => if l.isEmpty then [] else [kwBYDAY ++ '=' :: intercalateChar ',' l]
  | none => []

/-- The BYMONTHDAY entry of the `parts` array of `formatRRule`. -/
def fpByMonthDay (rule : RRuleObj) : List Str :=
  match rule.byMonthDay with
  | some l =>
    if l.isEmpty then []
    else [kwBYMONTHDAY ++ '=' :: intercalateChar ',' (l.map jsNumToStr)]
  | none => []

/-- The BYMONTH entry of the `parts` array of `formatRRule`. -/
def fpByMonth (rule : RRuleObj) : List Str :=
  match rule.byMonth with
  | some l =>
    if l.isEmpty then []
    else [kwBYMONTH ++ '=' :: intercalateChar ',' (l.map jsNumToStr)]
  | none => []

/-- The WKST entry of the `parts` array of `formatRRule`. -/
def fpWkst (rule : RRuleObj) : List Str :=
  match rule.wkst with
  | some w => if w.isEmpty then [] else [kwWKST ++ '=' :: w]
  | none => []

theorem formatRRuleParts_eq (rule : RRuleObj) :
    formatRRuleParts rule =
      fpFreq rule ++ fpCount rule ++ fpUntil rule ++ fpInterval rule ++
        fpByDay rule ++ fpByMonthDay rule ++ fpByMonth rule ++
        fpWkst rule := rfl

/-- The rules expressible in the supported RRULE grammar: FREQ one of the
four frequencies, COUNT and INTERVAL positive integers, UNTIL a normalized
four-digit-year date, BYDAY and WKST built from the weekday codes,
BYMONTHDAY in 1..31, BYMONTH in 1..12, and no passthrough keys. -/
def RuleWF (rule : RRuleObj) : Prop :=
  rule.freq.any (fun f => f == sDAILY || f == sWEEKLY || f == sMONTHLY ||
    f == sYEARLY) = true ∧
  rule.count.all (fun o => o.any fun n => decide (1 ≤ n)) = true ∧
  rule.untilDate.all (fun u => decide (DateWF u)) = true ∧
  rule.interval.all (fun o => o.any fun n => decide (1 ≤ n)) = true ∧
  rule.byDay.all (fun l => !l.isEmpty && l.all fun d =>
    dayCodes.contains d) = true ∧
  rule.byMonthDay.all (fun l => !l.isEmpty && l.all fun x =>
    x.any fun n => decide (1 ≤ n ∧ n ≤ 31)) = true ∧
  rule.byMonth.all (fun l => !l.isEmpty && l.all fun x =>
    x.any fun n => decide (1 ≤ n ∧ n ≤ 12)) = true ∧
  rule.wkst.all (fun w => dayCodes.contains w) = true ∧
  rule.extra = []

instance (rule : RRuleObj) : Decidable (RuleWF rule) := by
  unfold RuleWF
  infer_instance

/-- The COUNT field recovered after a format/parse cycle. -/
def canonCount (o : Option (Option Int)) : Option (Option Int) :=
  match o with | some (some n) => some (some n) | _ => none

/-- The UNTIL field recovered after a format/parse cycle: truncated to
seconds. -/
def canonUntil (o : Option JSDate) : Option JSDate :=
  match o with | some u => some (truncSec u) | none => none

/-- The INTERVAL field recovered after a format/parse cycle: dropped when
it is not greater than one, because `formatRRule` omits it. -/
def canonInterval (o : Option (Option Int)) : Option (Option Int) :=
  match o with
  | some (some n) => if 1 < n then some (some n) else none
  | _ => none

/-- The rule that `parseRRule` recovers from `formatRRule rule` on a
wellformed `rule`: identical up to truncating the UNTIL date to seconds
and dropping an INTERVAL of 1. -/
def canonRule (rule : RRuleObj) : RRuleObj :=
  { emptyRule with
    freq := rule.freq
    count := canonCount rule.count
    untilDate := canonUntil rule.untilDate
    interval := canonInterval rule.interval
    byDay := rule.byDay
    byMonthDay := rule.byMonthDay
    byMonth := rule.byMonth
    wkst := rule.wkst }

theorem freqWF_elim (o : Option Str)
    (h : o.any (fun f => f == sDAILY || f == sWEEKLY || f == sMONTHLY ||
      f == sYEARLY) = true) :
    ∃ f, o = some f ∧
      (f = sDAILY ∨ f = sWEEKLY ∨ f = sMONTHLY ∨ f = sYEARLY) := by
  rcases o with _ | f
  · simp [Option.any] at h
  · refine ⟨f, rfl, ?_⟩
    simpa [Option.any, Bool.or_eq_true, beq_iff_eq, or_assoc] using h

theorem countWF_elim (o : Option (Option Int))
    (h : o.all (fun o2 => o2.any fun n => decide (1 ≤ n)) = true) :
    o = none ∨ ∃ n : Int, o = some (some n) ∧ 1 ≤ n := by
  rcases o with _ | o2
  · exact Or.inl rfl
  · rcases o2 with _ | n
    · simp [Option.all, Option.any] at h
    · refine Or.inr ⟨n, rfl, ?_⟩
      simpa [Option.all, Option.any] using h

theorem untilWF_elim (o : Option JSDate)
    (h : o.all (fun u => decide (DateWF u)) = true) :
    o = none ∨ ∃ u, o = some u ∧ DateWF u := by
  rcases o with _ | u
  · exact Or.inl rfl
  · refine Or.inr ⟨u, rfl, ?_⟩
    simpa [Option.all] using h

theorem byDayWF_elim (o : Option (List Str))
    (h : o.all (fun l => !l.isEmpty && l.all fun d =>
      dayCodes.contains d) = true) :
    o = none ∨ ∃ l, o = some l ∧ l ≠ [] ∧ ∀ d ∈ l, d ∈ dayCodes := by
  rcases o with _ | l
  · exact Or.inl rfl
  · refine Or.inr ⟨l, rfl, ?_, ?_⟩
    · simp only [Option.all, Bool.and_eq_true, Bool.not_eq_true',
        List.isEmpty_eq_false] at h
      exact h.1
    · simp only [Option.all, Bool.and_eq_true, List.all_eq_true] at h
      intro d hd
      have := h.2 d hd
      simpa [List.contains, List.elem_iff] using this

theorem byNumWF_elim (o : Option (List (Option Int))) (bound : Int)
    (h : o.all (fun l => !l.isEmpty && l.all fun x =>
      x.any fun n => decide (1 ≤ n ∧ n ≤ bound)) = true) :
    o = none ∨ ∃ l, o = some l ∧ l ≠ [] ∧
      ∀ x ∈ l, ∃ n : Int, x = some n ∧ 1 ≤ n := by
  rcases o with _ | l
  · exact Or.inl rfl
  · refine Or.inr ⟨l, rfl, ?_, ?_⟩
    · simp only [Option.all, Bool.and_eq_true, Bool.not_eq_true',
        List.isEmpty_eq_false] at h
      exact h.1
    · simp only [Option.all, Bool.and_eq_true, List.all_eq_true] at h
      intro x hx
      have := h.2 x hx
      rcases x with _ | n
      · simp [Option.any] at this
      · refine ⟨n, rfl, ?_⟩
        simp only [Option.any, decide_eq_true_eq] at this
        exact this.1

theorem wkstWF_elim (o : Option Str)
    (h : o.all (fun w => dayCodes.contains w) = true) :
    o = none ∨ ∃ w, o = some w ∧ w ∈ dayCodes := by
  rcases o with _ | w
  · exact Or.inl rfl
  · refine Or.inr ⟨w, rfl, ?_⟩
    simp only [Option.all] at h
    simpa [List.contains, List.elem_iff] using h

theorem dayCodes_facts (d : Str) (h : d ∈ dayCodes) :
    d ≠ [] ∧ ',' ∉ d ∧ ';' ∉ d ∧ '=' ∉ d ∧ toUpperStr d = d := by
  simp only [dayCodes, List.mem_cons, List.not_mem_nil, or_false] at h
  rcases h with rfl | rfl | rfl | rfl | rfl | rfl | rfl <;> decide

theorem natToStr_no_special (n : Nat) :
    '=' ∉ natToStr n ∧ ';' ∉ natToStr n ∧ ',' ∉ natToStr n := by
  refine ⟨fun hc => ?_, fun hc => ?_, fun hc => ?_⟩
  · exact absurd rfl (isDigit_ne_eq _ (natToStr_digits n _ hc))
  · exact absurd rfl (isDigit_ne_semi _ (natToStr_digits n _ hc))
  · exact absurd rfl (isDigit_ne_comma _ (natToStr_digits n _ hc))

theorem intToStr_ne_nil (i : Int) : intToStr i ≠ [] := by
  simp only [intToStr]
  split
  · simp
  · exact (natToStr_spec _).1

theorem formatRRuleDate_ne_nil (dt : JSDate) : formatRRuleDate dt ≠ [] := by
  simp only [formatRRuleDate]
  intro h
  exact intToStr_ne_nil dt.year
    (List.append_eq_nil.mp (List.append_eq_nil.mp
      (List.append_eq_nil.mp h).1).1).1

theorem formatRRuleDate_no_special (dt : JSDate) (hy : 0 ≤ dt.year) :
    '=' ∉ formatRRuleDate dt ∧ ';' ∉ formatRRuleDate dt := by
  refine ⟨fun hc => ?_, fun hc => ?_⟩ <;>
    rcases formatRRuleDate_chars dt hy _ hc with h | h | h <;>
      exact absurd h (by decide)


theorem fold_fpFreq (rule r : RRuleObj) (f : Str) (hf : rule.freq = some f)
    (hd : f = sDAILY ∨ f = sWEEKLY ∨ f = sMONTHLY ∨ f = sYEARLY) :
    List.foldl applyRulePart r (fpFreq rule) =
      { r with freq := rule.freq } := by
  have hup : toUpperStr f = f := by
    rcases hd with rfl | rfl | rfl | rfl <;> decide
  have hne : f ≠ [] := by rcases hd with rfl | rfl | rfl | rfl <;> decide
  have heq : '=' ∉ f := by rcases hd with rfl | rfl | rfl | rfl <;> decide
  have hie : f.isEmpty = false := by simp [List.isEmpty_eq_false, hne]
  simp only [fpFreq, hf]
  rw [hie, if_neg (by decide)]
  simp only [List.foldl_cons, List.foldl_nil, hup]
  rw [applyPartFREQ r f hne heq, hup]

theorem fold_fpCount (rule r : RRuleObj) (hr : r.count = none)
    (h : rule.count = none ∨ ∃ n : Int, rule.count = some (some n) ∧ 1 ≤ n) :
    List.foldl applyRulePart r (fpCount rule) =
      { r with count := canonCount rule.count } := by
  rcases h with h | ⟨n, h, hn⟩
  · have hcc : canonCount rule.count = r.count := by rw [h, hr]; rfl
    rw [hcc]
    simp only [fpCount, h, List.foldl_nil]
  · have hcc : canonCount rule.count = some (some n) := by rw [h]; rfl
    rw [hcc]
    have hv : jsNumToStr (some n) = natToStr n.toNat :=
      intToStr_nonneg n (by omega)
    simp only [fpCount, h]
    rw [if_neg (by omega)]
    simp only [List.foldl_cons, List.foldl_nil, hv]
    rw [applyPartCOUNT r _ (natToStr_spec _).1 (natToStr_no_special _).1,
      parseIntJS_natToStr, Int.toNat_of_nonneg (show (0 : Int) ≤ n by omega)]

theorem fold_fpUntil (rule r : RRuleObj) (hr : r.untilDate = none)
    (h : rule.untilDate = none ∨ ∃ u, rule.untilDate = some u ∧ DateWF u) :
    List.foldl applyRulePart r (fpUntil rule) =
      { r with untilDate := canonUntil rule.untilDate } := by
  rcases h with h | ⟨u, h, hwf⟩
  · have hcc : canonUntil rule.untilDate = r.untilDate := by
      rw [h, hr]; rfl
    rw [hcc]
    simp only [fpUntil, h, List.foldl_nil]
  · have hcc : canonUntil rule.untilDate = some (truncSec u) := by
      rw [h]; rfl
    rw [hcc]
    have hy : (0 : Int) ≤ u.year := by
      have := hwf.1
      omega
    simp only [fpUntil, h, List.foldl_cons, List.foldl_nil]
    rw [applyPartUNTIL r _ (formatRRuleDate_ne_nil u)
      (formatRRuleDate_no_special u hy).1, parseRRuleDate_format u hwf]

theorem fold_fpInterval (rule r : RRuleObj) (hr : r.interval = none)
    (h : rule.interval = none ∨
      ∃ n : Int, rule.interval = some (some n) ∧ 1 ≤ n) :
    List.foldl applyRulePart r (fpInterval rule) =
      { r with interval := canonInterval rule.interval } := by
  rcases h with h | ⟨n, h, hn⟩
  · have hcc : canonInterval rule.interval = r.interval := by rw [h, hr]; rfl
    rw [hcc]
    simp only [fpInterval, h, List.foldl_nil]
  · by_cases h1 : 1 < n
    · have hcc : canonInterval rule.interval = some (some n) := by
        rw [h]
        simp [canonInterval, if_pos h1]
      rw [hcc]
      simp only [fpInterval, h]
      rw [if_pos h1]
      have hv : jsNumToStr (some n) = natToStr n.toNat :=
        intToStr_nonneg n (by omega)
      simp only [List.foldl_cons, List.foldl_nil, hv]
      rw [applyPartINTERVAL r _ (natToStr_spec _).1 (natToStr_no_special _).1,
        parseIntJS_natToStr, Int.toNat_of_nonneg (show (0 : Int) ≤ n by omega)]
    · have hcc : canonInterval rule.interval = r.interval := by
        rw [h, hr]
        simp [canonInterval, if_neg h1]
      rw [hcc]
      simp only [fpInterval, h]
      rw [if_neg h1]
      simp only [List.foldl_nil]

theorem fold_fpByDay (rule r : RRuleObj) (hr : r.byDay = none)
    (h : rule.byDay = none ∨ ∃ l, rule.byDay = some l ∧ l ≠ [] ∧
      ∀ d ∈ l, d ∈ dayCodes) :
    List.foldl applyRulePart r (fpByDay rule) =
      { r with byDay := rule.byDay } := by
  rcases h with h | ⟨l, h, hlne, hcodes⟩
  · rw [h, ← hr]
    simp only [fpByDay, h, List.foldl_nil]
  · have hpne : ∀ p ∈ l, p ≠ [] := fun p hp =>
      (dayCodes_facts p (hcodes p hp)).1
    have hpnc : ∀ p ∈ l, ',' ∉ p := fun p hp =>
      (dayCodes_facts p (hcodes p hp)).2.1
    have hvne : intercalateChar ',' l ≠ [] :=
      intercalateChar_ne_nil ',' l hlne hpne
    have hveq : '=' ∉ intercalateChar ',' l := by
      intro hc
      rcases mem_intercalateChar ',' l '=' hc with h2 | ⟨p, hp, hxp⟩
      · exact absurd h2 (by decide)
      · exact (dayCodes_facts p (hcodes p hp)).2.2.2.1 hxp
    have hie : l.isEmpty = false := by simp [List.isEmpty_eq_false, hlne]
    simp only [fpByDay, h]
    rw [hie, if_neg (by decide)]
    simp only [List.foldl_cons, List.foldl_nil]
    rw [applyPartBYDAY r _ hvne hveq, splitChar_intercalate ',' l hlne hpnc]

theorem fold_fpByMonthDay (rule r : RRuleObj) (hr : r.byMonthDay = none)
    (h : rule.byMonthDay = none ∨ ∃ l, rule.byMonthDay = some l ∧ l ≠ [] ∧
      ∀ x ∈ l, ∃ n : Int, x = some n ∧ 1 ≤ n) :
    List.foldl applyRulePart r (fpByMonthDay rule) =
      { r with byMonthDay := rule.byMonthDay } := by
  rcases h with h | ⟨l, h, hlne, hnum⟩
  · rw [h, ← hr]
    simp only [fpByMonthDay, h, List.foldl_nil]
  · have hmapne : l.map jsNumToStr ≠ [] := by simp [hlne]
    have hpne : ∀ p ∈ l.map jsNumToStr, p ≠ [] := by
      intro p hp
      rcases List.mem_map.mp hp with ⟨x, hx, rfl⟩
      rcases hnum x hx with ⟨n, rfl, hn⟩
      rw [show jsNumToStr (some n) = natToStr n.toNat from
        intToStr_nonneg n (by omega)]
      exact (natToStr_spec _).1
    have hpnc : ∀ p ∈ l.map jsNumToStr, ',' ∉ p := by
      intro p hp
      rcases List.mem_map.mp hp with ⟨x, hx, rfl⟩
      rcases hnum x hx with ⟨n, rfl, hn⟩
      rw [show jsNumToStr (some n) = natToStr n.toNat from
        intToStr_nonneg n (by omega)]
      exact (natToStr_no_special _).2.2
    have hvne := intercalateChar_ne_nil ',' _ hmapne hpne
    have hveq : '=' ∉ intercalateChar ',' (l.map jsNumToStr) := by
      intro hc
      rcases mem_intercalateChar ',' _ '=' hc with h2 | ⟨p, hp, hxp⟩
      · exact absurd h2 (by decide)
      · rcases List.mem_map.mp hp with ⟨x, hx, rfl⟩
        rcases hnum x hx with ⟨n, rfl, hn⟩
        rw [show jsNumToStr (some n) = natToStr n.toNat from
          intToStr_nonneg n (by omega)] at hxp
        exact (natToStr_no_special _).1 hxp
    have hie : l.isEmpty = false := by simp [List.isEmpty_eq_false, hlne]
    simp only [fpByMonthDay, h]
    rw [hie, if_neg (by decide)]
    simp only [List.foldl_cons, List.foldl_nil]
    rw [applyPartBYMONTHDAY r _ hvne hveq,
      splitChar_intercalate ',' _ hmapne hpnc, List.map_map]
    have hmid : l.map (parseIntJS ∘ jsNumToStr) = l := by
      have h2 : ∀ x ∈ l, (parseIntJS ∘ jsNumToStr) x = id x := by
        intro x hx
        rcases hnum x hx with ⟨n, rfl, hn⟩
        simp only [Function.comp_apply, id_eq]
        rw [show jsNumToStr (some n) = natToStr n.toNat from
          intToStr_nonneg n (by omega), parseIntJS_natToStr,
          Int.toNat_of_nonneg (show (0 : Int) ≤ n by omega)]
      rw [List.map_congr_left h2, List.map_id]
    rw [hmid]

theorem fold_fpByMonth (rule r : RRuleObj) (hr : r.byMonth = none)
    (h : rule.byMonth = none ∨ ∃ l, rule.byMonth = some l ∧ l ≠ [] ∧
      ∀ x ∈ l, ∃ n : Int, x = some n ∧ 1 ≤ n) :
    List.foldl applyRulePart r (fpByMonth rule) =
      { r with byMonth := rule.byMonth } := by
  rcases h with h | ⟨l, h, hlne, hnum⟩
  · rw [h, ← hr]
    simp only [fpByMonth, h, List.foldl_nil]
  · have hmapne : l.map jsNumToStr ≠ [] := by simp [hlne]
    have hpne : ∀ p ∈ l.map jsNumToStr, p ≠ [] := by
      intro p hp
      rcases List.mem_map.mp hp with ⟨x, hx, rfl⟩
      rcases hnum x hx with ⟨n, rfl, hn⟩
      rw [show jsNumToStr (some n) = natToStr n.toNat from
        intToStr_nonneg n (by omega)]
      exact (natToStr_spec _).1
    have hpnc : ∀ p ∈ l.map jsNumToStr, ',' ∉ p := by
      intro p hp
      rcases List.mem_map.mp hp with ⟨x, hx, rfl⟩
      rcases hnum x hx with ⟨n, rfl, hn⟩
      rw [show jsNumToStr (some n) = natToStr n.toNat from
        intToStr_nonneg n (by omega)]
      exact (natToStr_no_special _).2.2
    have hvne := intercalateChar_ne_nil ',' _ hmapne hpne
    have hveq : '=' ∉ intercalateChar ',' (l.map jsNumToStr) := by
      intro hc
      rcases mem_intercalateChar ',' _ '=' hc with h2 | ⟨p, hp, hxp⟩
      · exact absurd h2 (by decide)
      · rcases List.mem_map.mp hp with ⟨x, hx, rfl⟩
        rcases hnum x hx with ⟨n, rfl, hn⟩
        rw [show jsNumToStr (some n) = natToStr n.toNat from
          intToStr_nonneg n (by omega)] at hxp
        exact (natToStr_no_special _).1 hxp
    have hie : l.isEmpty = false := by simp [List.isEmpty_eq_false, hlne]
    simp only [fpByMonth, h]
    rw [hie, if_neg (by decide)]
    simp only [List.foldl_cons, List.foldl_nil]
    rw [applyPartBYMONTH r _ hvne hveq,
      splitChar_intercalate ',' _ hmapne hpnc, List.map_map]
    have hmid : l.map (parseIntJS ∘ jsNumToStr) = l := by
      have h2 : ∀ x ∈ l, (parseIntJS ∘ jsNumToStr) x = id x := by
        intro x hx
        rcases hnum x hx with ⟨n, rfl, hn⟩
        simp only [Function.comp_apply, id_eq]
        rw [show jsNumToStr (some n) = natToStr n.toNat from
          intToStr_nonneg n (by omega), parseIntJS_natToStr,
          Int.toNat_of_nonneg (show (0 : Int) ≤ n by omega)]
      rw [List.map_congr_left h2, List.map_id]
    rw [hmid]

theorem fold_fpWkst (rule r : RRuleObj) (hr : r.wkst = none)
    (h : rule.wkst = none ∨ ∃ w, rule.wkst = some w ∧ w ∈ dayCodes) :
    List.foldl applyRulePart r (fpWkst rule) =
      { r with wkst := rule.wkst } := by
  rcases h with h | ⟨w, h, hw⟩
  · rw [h, ← hr]
    simp only [fpWkst, h, List.foldl_nil]
  · obtain ⟨hne, _, _, heq, hup⟩ := dayCodes_facts w hw
    have hie : w.isEmpty = false := by simp [List.isEmpty_eq_false, hne]
    simp only [fpWkst, h]
    rw [hie, if_neg (by decide)]
    simp only [List.foldl_cons, List.foldl_nil]
    rw [applyPartWKST r _ hne heq, hup]

theorem stripRuleMarker_marker (s : Str) :
    stripRuleMarker (kwRRULEc ++ s) = s := by
  simp only [stripRuleMarker]
  rw [take_len_append kwRRULEc s 6 (by decide)]
  rw [if_pos (by decide)]
  exact drop_len_append kwRRULEc s 6 (by decide)

theorem parts_no_semi (rule : RRuleObj) (h : RuleWF rule) :
    ∀ p ∈ formatRRuleParts rule, ';' ∉ p := by
  obtain ⟨h1, h2, h3, h4, h5, h6, h7, h8, h9⟩ := h
  obtain ⟨f, hf, hd⟩ := freqWF_elim _ h1
  have hc := countWF_elim _ h2
  have hu := untilWF_elim _ h3
  have hi := countWF_elim _ h4
  have hbd := byDayWF_elim _ h5
  have hbmd := byNumWF_elim _ 31 h6
  have hbm := byNumWF_elim _ 12 h7
  have hw := wkstWF_elim _ h8
  intro p hp
  rw [formatRRuleParts_eq] at hp
  simp only [List.mem_append] at hp
  rcases hp with ((((((hp | hp) | hp) | hp) | hp) | hp) | hp) | hp
  · simp only [fpFreq, hf] at hp
    rcases hd with rfl | rfl | rfl | rfl <;> simp at hp <;>
      obtain ⟨-, rfl⟩ := hp <;> decide
  · rcases hc with hcc | ⟨n, hcc, hn⟩
    · simp [fpCount, hcc] at hp
    · simp only [fpCount, hcc] at hp
      rw [if_neg (by omega)] at hp
      simp only [List.mem_singleton] at hp
      subst hp
      intro hsc
      rcases List.mem_append.mp hsc with hs | hs
      · exact absurd hs (by decide)
      · rcases List.mem_cons.mp hs with hs | hs
        · exact absurd hs (by decide)
        · rw [show jsNumToStr (some n) = natToStr n.toNat from
            intToStr_nonneg n (by omega)] at hs
          exact (natToStr_no_special _).2.1 hs
  · rcases hu with hcc | ⟨u, hcc, huwf⟩
    · simp [fpUntil, hcc] at hp
    · simp only [fpUntil, hcc, List.mem_singleton] at hp
      subst hp
      intro hsc
      rcases List.mem_append.mp hsc with hs | hs
      · exact absurd hs (by decide)
      · rcases List.mem_cons.mp hs with hs | hs
        · exact absurd hs (by decide)
        · refine (formatRRuleDate_no_special u ?_).2 hs
          have := huwf.1
          omega
  · rcases hi with hcc | ⟨n, hcc, hn⟩
    · simp [fpInterval, hcc] at hp
    · simp only [fpInterval, hcc] at hp
      by_cases h1 : 1 < n
      · rw [if_pos h1] at hp
        simp only [List.mem_singleton] at hp
        subst hp
        intro hsc
        rcases List.mem_append.mp hsc with hs | hs
        · exact absurd hs (by decide)
        · rcases List.mem_cons.mp hs with hs | hs
          · exact absurd hs (by decide)
          · rw [show jsNumToStr (some n) = natToStr n.toNat from
              intToStr_nonneg n (by omega)] at hs
            exact (natToStr_no_special _).2.1 hs
      · rw [if_neg h1] at hp
        simp at hp
  · rcases hbd with hcc | ⟨l, hcc, hlne, hcodes⟩
    · simp [fpByDay, hcc] at hp
    · simp only [fpByDay, hcc] at hp
      rw [show l.isEmpty = false from by simp [List.isEmpty_eq_false, hlne],
        if_neg (by decide)] at hp
      simp only [List.mem_singleton] at hp
      subst hp
      intro hsc
      rcases List.mem_append.mp hsc with hs | hs
      · exact absurd hs (by decide)
      · rcases List.mem_cons.mp hs with hs | hs
        · exact absurd hs (by decide)
        · rcases mem_intercalateChar ',' l ';' hs with h2 | ⟨q, hq, hxq⟩
          · exact absurd h2 (by decide)
          · exact (dayCodes_facts q (hcodes q hq)).2.2.1 hxq
  · rcases hbmd with hcc | ⟨l, hcc, hlne, hnum⟩
    · simp [fpByMonthDay, hcc] at hp
    · simp only [fpByMonthDay, hcc] at hp
      rw [show l.isEmpty = false from by simp [List.isEmpty_eq_false, hlne],
        if_neg (by decide)] at hp
      simp only [List.mem_singleton] at hp
      subst hp
      intro hsc
      rcases List.mem_append.mp hsc with hs | hs
      · exact absurd hs (by decide)
      · rcases List.mem_cons.mp hs with hs | hs
        · exact absurd hs (by decide)
        · rcases mem_intercalateChar ',' _ ';' hs with h2 | ⟨q, hq, hxq⟩
          · exact absurd h2 (by decide)
          · rcases List.mem_map.mp hq with ⟨x, hx, rfl⟩
            rcases hnum x hx with ⟨n, rfl, hn⟩
            rw [show jsNumToStr (some n) = natToStr n.toNat from
              intToStr_nonneg n (by omega)] at hxq
            exact (natToStr_no_special _).2.1 hxq
  · rcases hbm with hcc | ⟨l, hcc, hlne, hnum⟩
    · simp [fpByMonth, hcc] at hp
    · simp only [fpByMonth, hcc] at hp
      rw [show l.isEmpty = false from by simp [List.isEmpty_eq_false, hlne],
        if_neg (by decide)] at hp
      simp only [List.mem_singleton] at hp
      subst hp
      intro hsc
      rcases List.mem_append.mp hsc with hs | hs
      · exact absurd hs (by decide)
      · rcases List.mem_cons.mp hs with hs | hs
        · exact absurd hs (by decide)
        · rcases mem_intercalateChar ',' _ ';' hs with h2 | ⟨q, hq, hxq⟩
          · exact absurd h2 (by decide)
          · rcases List.mem_map.mp hq with ⟨x, hx, rfl⟩
            rcases hnum x hx with ⟨n, rfl, hn⟩
            rw [show jsNumToStr (some n) = natToStr n.toNat from
              intToStr_nonneg n (by omega)] at hxq
            exact (natToStr_no_special _).2.1 hxq
  · rcases hw with hcc | ⟨w, hcc, hwc⟩
    · simp [fpWkst, hcc] at hp
    · simp only [fpWkst, hcc] at hp
      rw [show w.isEmpty = false from by
        simp [List.isEmpty_eq_false, (dayCodes_facts w hwc).1],
        if_neg (by decide)] at hp
      simp only [List.mem_singleton] at hp
      subst hp
      intro hsc
      rcases List.mem_append.mp hsc with hs | hs
      · exact absurd hs (by decide)
      · rcases List.mem_cons.mp hs with hs | hs
        · exact absurd hs (by decide)
        · exact (dayCodes_facts w hwc).2.2.1 hs

theorem parseRRule_format_eq (rule : RRuleObj) (h : RuleWF rule) :
    parseRRule (formatRRule rule) = some (canonRule rule) := by
  have hns := parts_no_semi rule h
  obtain ⟨h1, h2, h3, h4, h5, h6, h7, h8, h9⟩ := h
  obtain ⟨f, hf, hd⟩ := freqWF_elim _ h1
  have hc := countWF_elim _ h2
  have hu := untilWF_elim _ h3
  have hi := countWF_elim _ h4
  have hbd := byDayWF_elim _ h5
  have hbmd := byNumWF_elim _ 31 h6
  have hbm := byNumWF_elim _ 12 h7
  have hw := wkstWF_elim _ h8
  have hfne : f ≠ [] := by rcases hd with rfl | rfl | rfl | rfl <;> decide
  have hfp : fpFreq rule = [kwFREQ ++ '=' :: f] := by
    have hup : toUpperStr f = f := by
      rcases hd with rfl | rfl | rfl | rfl <;> decide
    have hie : f.isEmpty = false := by simp [List.isEmpty_eq_false, hfne]
    simp only [fpFreq, hf]
    rw [hie, if_neg (by decide), hup]
  have hparts_ne : formatRRuleParts rule ≠ [] := by
    rw [formatRRuleParts_eq]
    simp [hfp]
  have hpie : (formatRRuleParts rule).isEmpty = false := by
    simp [List.isEmpty_eq_false, hparts_ne]
  have hfr : formatRRule rule =
      kwRRULEc ++ intercalateChar ';' (formatRRuleParts rule) := by
    simp only [formatRRule]
    rw [hpie, if_neg (by decide)]
  rw [hfr]
  simp only [parseRRule]
  rw [if_neg (by simp [kwRRULEc])]
  rw [stripRuleMarker_marker, splitChar_intercalate ';' _ hparts_ne hns,
    formatRRuleParts_eq]
  rw [List.foldl_append, List.foldl_append, List.foldl_append,
    List.foldl_append, List.foldl_append, List.foldl_append,
    List.foldl_append]
  rw [fold_fpFreq rule emptyRule f hf hd]
  rw [fold_fpCount rule { emptyRule with freq := rule.freq } rfl hc]
  rw [fold_fpUntil rule { emptyRule with freq := rule.freq, count := canonCount rule.count } rfl hu]
  rw [fold_fpInterval rule { emptyRule with freq := rule.freq, count := canonCount rule.count, untilDate := canonUntil rule.untilDate } rfl hi]
  rw [fold_fpByDay rule { emptyRule with freq := rule.freq, count := canonCount rule.count, untilDate := canonUntil rule.untilDate, interval := canonInterval rule.interval } rfl hbd]
  rw [fold_fpByMonthDay rule { emptyRule with freq := rule.freq, count := canonCount rule.count, untilDate := canonUntil rule.untilDate, interval := canonInterval rule.interval, byDay := rule.byDay } rfl hbmd]
  rw [fold_fpByMonth rule { emptyRule with freq := rule.freq, count := canonCount rule.count, untilDate := canonUntil rule.untilDate, interval := canonInterval rule.interval, byDay := rule.byDay, byMonthDay := rule.byMonthDay } rfl hbm]
  rw [fold_fpWkst rule { emptyRule with freq := rule.freq, count := canonCount rule.count, untilDate := canonUntil rule.untilDate, interval := canonInterval rule.interval, byDay := rule.byDay, byMonthDay := rule.byMonthDay, byMonth := rule.byMonth } rfl hw]
  rfl

theorem formatRRule_canon (rule : RRuleObj) (h : RuleWF rule) :
    formatRRule (canonRule rule) = formatRRule rule := by
  obtain ⟨h1, h2, h3, h4, h5, h6, h7, h8, h9⟩ := h
  have hc := countWF_elim _ h2
  have hu := untilWF_elim _ h3
  have hi := countWF_elim _ h4
  suffices hp : formatRRuleParts (canonRule rule) = formatRRuleParts rule by
    simp only [formatRRule, hp]
  rw [formatRRuleParts_eq, formatRRuleParts_eq]
  have e1 : fpFreq (canonRule rule) = fpFreq rule := by
    simp only [fpFreq, canonRule]
  have e2 : fpCount (canonRule rule) = fpCount rule := by
    rcases hc with hcc | ⟨n, hcc, hn⟩
    · simp [fpCount, canonRule, hcc, canonCount]
    · simp [fpCount, canonRule, hcc, canonCount]
  have e3 : fpUntil (canonRule rule) = fpUntil rule := by
    rcases hu with hcc | ⟨u, hcc, huwf⟩
    · simp [fpUntil, canonRule, hcc, canonUntil]
    · simp only [fpUntil, canonRule, hcc, canonUntil]
      rw [formatRRuleDate_truncSec]
  have e4 : fpInterval (canonRule rule) = fpInterval rule := by
    rcases hi with hcc | ⟨n, hcc, hn⟩
    · simp [fpInterval, canonRule, hcc, canonInterval]
    · simp only [fpInterval, canonRule, hcc, canonInterval]
      by_cases h1 : 1 < n
      · simp [h1]
      · simp [h1]
  have e5 : fpByDay (canonRule rule) = fpByDay rule := by
    simp only [fpByDay, canonRule]
  have e6 : fpByMonthDay (canonRule rule) = fpByMonthDay rule := by
    simp only [fpByMonthDay, canonRule]
  have e7 : fpByMonth (canonRule rule) = fpByMonth rule := by
    simp only [fpByMonth, canonRule]
  have e8 : fpWkst (canonRule rule) = fpWkst rule := by
    simp only [fpWkst, canonRule]
  rw [e1, e2, e3, e4, e5, e6, e7, e8]

/-- C4: for every rule expressible in the supported grammar (FREQ one of
DAILY/WEEKLY/MONTHLY/YEARLY, positive COUNT and INTERVAL, a normalized
UNTIL date, BYDAY/WKST weekday codes, BYMONTHDAY in 1..31, BYMONTH in
1..12), formatting, parsing the result, and formatting again reproduces
the first formatted text: `formatRRule (parseRRule (formatRRule r)) =
formatRRule r`, with `formatRRule` emitting fields in the canonical order
FREQ, COUNT, UNTIL, INTERVAL, BYDAY, BYMONTHDAY, BYMONTH, WKST and
omitting INTERVAL when it equals 1 and absent fields. -/
theorem c4_format_parse_roundtrip (rule : RRuleObj) (h : RuleWF rule) :
    ∃ rule2, parseRRule (formatRRule rule) = some rule2 ∧
      formatRRule rule2 = formatRRule rule :=
  ⟨canonRule rule, parseRRule_format_eq rule h, formatRRule_canon rule h⟩

/-- A concrete grammar-wellformed rule exercising most fields:
FREQ=WEEKLY;COUNT=3;UNTIL=20250615T010101Z;INTERVAL=2;BYDAY=MO,WE;
BYMONTH=6;WKST=MO (the UNTIL time of day carries a sub-second part that
formatting truncates). -/
def c4wRule : RRuleObj :=
  { emptyRule with
    freq := some sWEEKLY
    count := some (some 3)
    untilDate := some ⟨2025, 5, 15, 3661500⟩
    interval := some (some 2)
    byDay := some [['M', 'O'], ['W', 'E']]
    byMonth := some [some 6]
    wkst := some ['M', 'O'] }

theorem c4_format_parse_roundtrip_witness :
    RuleWF c4wRule ∧
      ∃ rule2, parseRRule (formatRRule c4wRule) = some rule2 ∧
        formatRRule rule2 = formatRRule c4wRule :=
  ⟨by decide, c4_format_parse_roundtrip c4wRule (by decide)⟩

theorem applyPartExtra (r : RRuleObj) (key value : Str) (hk : key ≠ [])
    (hv : value ≠ []) (hek : '=' ∉ key) (hev : '=' ∉ value)
    (hnr : toUpperStr key ∉ [kwFREQ, kwCOUNT, kwUNTIL, kwINTERVAL, kwBYDAY,
      kwBYMONTHDAY, kwBYMONTH, kwWKST]) :
    applyRulePart r (key ++ '=' :: value) =
      { r with extra := setExtra r.extra (toLowerStr (toUpperStr key)) value } := by
  simp only [applyRulePart, splitChar_append_cons '=' key value hek,
    splitChar_no_sep '=' value hev]
  simp only [List.mem_cons, List.not_mem_nil, or_false, not_or] at hnr
  obtain ⟨n1, n2, n3, n4, n5, n6, n7, n8⟩ := hnr
  rw [if_neg (by simp [hk, hv])]
  rw [if_neg n1, if_neg n2, if_neg n3, if_neg n4, if_neg n5, if_neg n6,
    if_neg n7, if_neg n8]

/-- C5: `parseRRule` has no failure path on malformed pairs, contrary to
the spec's FormatError: it returns `null` (here `none`) exactly on a falsy
argument; a part without `=` (or with an empty key or value) is silently
skipped, leaving the rule unchanged; the optional `RRULE:` marker is
tolerated and removed; and an unrecognized wellformed `key=value` pair is
preserved verbatim under the lower-cased key. -/
theorem c5_parse_never_fails :
    (∀ s : Str, parseRRule s = none ↔ s = []) ∧
    (∀ (r : RRuleObj) (part : Str), '=' ∉ part → applyRulePart r part = r) ∧
    (∀ s : Str, parseRRule (kwRRULEc ++ s) =
      some ((splitChar ';' s).foldl applyRulePart emptyRule)) ∧
    (∀ key value : Str, key ≠ [] → value ≠ [] → '=' ∉ key → '=' ∉ value →
      ';' ∉ key → ';' ∉ value →
      toUpperStr key ∉ [kwFREQ, kwCOUNT, kwUNTIL, kwINTERVAL, kwBYDAY,
        kwBYMONTHDAY, kwBYMONTH, kwWKST] →
      parseRRule (kwRRULEc ++ key ++ '=' :: value) =
        some { emptyRule with
          extra := [(toLowerStr (toUpperStr key), value)] }) := by
  refine ⟨?_, ?_, ?_, ?_⟩
  · intro s
    constructor
    · intro h
      by_cases he : s = []
      · exact he
      · simp only [parseRRule] at h
        rw [if_neg (by simp [List.isEmpty_eq_false, he])] at h
        exact absurd h (by simp)
    · rintro rfl
      rfl
  · intro r part h
    simp only [applyRulePart, splitChar_no_sep '=' part h]
  · intro s
    simp only [parseRRule]
    rw [if_neg (by simp [kwRRULEc]), stripRuleMarker_marker]
  · intro key value hk hv hek hev hsk hsv hnr
    simp only [parseRRule]
    rw [if_neg (by simp [kwRRULEc]), List.append_assoc,
      stripRuleMarker_marker]
    have hns : ';' ∉ key ++ '=' :: value := by
      intro hc
      rcases List.mem_append.mp hc with hs | hs
      · exact hsk hs
      · rcases List.mem_cons.mp hs with hs | hs
        · exact absurd hs (by decide)
        · exact hsv hs
    rw [splitChar_no_sep ';' _ hns]
    simp only [List.foldl_cons, List.foldl_nil]
    rw [applyPartExtra emptyRule key value hk hv hek hev hnr]
    rfl

/-- The concrete unrecognized pair X=7 used to evaluate the C5 theorem. -/
theorem c5_parse_never_fails_witness :
    parseRRule (kwRRULEc ++ ['X'] ++ '=' :: ['7']) =
      some { emptyRule with extra := [(toLowerStr (toUpperStr ['X']), ['7'])] } :=
  c5_parse_never_fails.2.2.2 ['X'] ['7'] (by decide) (by decide) (by decide)
    (by decide) (by decide) (by decide) (by decide)

/-- C5 counterexample to the spec's FormatError: the single malformed part
FREQ (no `=`) parses to the empty rule object instead of failing; the
function's only non-rule result is the `null` returned for a falsy
argument. -/
theorem c5_malformed_is_skipped :
    parseRRule ['F', 'R', 'E', 'Q'] = some emptyRule := by decide
